import Mathlib

/-!
Verification of the `chanx` (self-adaptive ring buffer, adaptive channel) and
`maxinflight` (token-bucket limiter) packages of zoumo/golib.

The Go code is shallowly embedded: Go `int` is modelled as `Int`/`Nat` with
explicit 64-bit wrap-around where the source guards against overflow; struct
mutation becomes explicit state passing; a Go runtime panic (out-of-range
slice index) is modelled by `Option`-valued operations returning `none`.

Layout: all definitions come first, then all theorems.
-/

set_option autoImplicit false
set_option maxHeartbeats 1000000

namespace Golib


/-- Go `math.MaxInt` on a 64-bit platform, as an integer. -/
def maxInt : Int := 2 ^ 63 - 1

/-- Go `math.MaxInt` on a 64-bit platform, as a natural number. -/
def maxIntNat : Nat := 2 ^ 63 - 1

/-- Result of a Go 64-bit signed integer operation: wrap the mathematical
value into `[-2^63, 2^63)` (two's complement). -/
def wrap64 (x : Int) : Int := (x + 2 ^ 63) % (2 ^ 64) - 2 ^ 63

/-- Go constant `growThreshold = 1024`. -/
def growThreshold : Int := 1024

structure RingBuffer (α : Type) where
  buf : List (Option α)
  maxSize : Nat
  initSize : Nat
  size : Nat
  r : Nat
  w : Nat
  full : Bool
  deriving DecidableEq, Repr

namespace RingBuffer

variable {α : Type}



/-- `NewSelfAdptiveRingBuffer` (sic). Note the guard in the source is
`initSize < 0`, so an `initSize` of exactly `0` is kept as-is, and
`maxSize < 0` becomes `0` (unbounded). -/
def NewSelfAdptiveRingBuffer (α : Type) (initSize maxSize : Int) : RingBuffer α :=
  let initSize := if initSize < 0 then 1 else initSize
  let maxSize := if maxSize < 0 then 0 else maxSize
  { buf := List.replicate initSize.toNat none
    initSize := initSize.toNat
    maxSize := maxSize.toNat
    size := initSize.toNat
    r := 0
    w := 0
    full := false }

def IsFull (rb : RingBuffer α) : Bool := rb.full

def IsEmpty (rb : RingBuffer α) : Bool := !rb.full && rb.r == rb.w

def NeedReset (rb : RingBuffer α) : Bool := rb.IsEmpty && rb.initSize < rb.size

/-- `growCap`. The source computes in Go `int` arithmetic with explicit
overflow guards (`doubleCap <= 0`, `add <= 0`, `newcap <= 0` after wrap),
so every addition is passed through `wrap64`. -/
def growCap (rb : RingBuffer α) : Int :=
  if 0 < rb.maxSize ∧ rb.maxSize ≤ rb.size then
    -- can not grow any more
    (rb.size : Int)
  else
    let newcap : Int := (rb.size : Int)
    let doubleCap := wrap64 (newcap + newcap)
    let doubleCap := if doubleCap ≤ 0 then maxInt else doubleCap
    let newcap :=
      if (rb.size : Int) < growThreshold then
        doubleCap
      else
        let add := wrap64 (newcap + 3 * growThreshold)
        if add ≤ 0 then maxInt
        else
          let newcap := wrap64 (newcap + add / 4)
          if newcap ≤ 0 then maxInt else newcap
    if 0 < rb.maxSize ∧ (rb.maxSize : Int) < newcap then (rb.maxSize : Int) else newcap

/-- `grow`: `none` models `return false` (no mutation). The two `copy` calls
write `buf[r:]` then `buf[0:r]` to the front of the new array; the remaining
slots of the fresh array keep the zero value `nil`. -/
def grow (rb : RingBuffer α) : Option (RingBuffer α) :=
  let newcap := rb.growCap
  if newcap ≤ (rb.size : Int) then none
  else
    let buf := (rb.buf.drop rb.r ++ rb.buf.take rb.r) ++
      List.replicate (newcap.toNat - rb.size) none
    some { rb with r := 0, w := rb.size, size := newcap.toNat, buf := buf }

/-- `Put`. The result is `none` when `rb.buf[rb.w] = v` would panic with an
out-of-range index; otherwise `some (new state, returned Bool)`. -/
def Put (rb : RingBuffer α) (v : α) : Option (RingBuffer α × Bool) :=
  if rb.IsFull then some (rb, false)
  else if rb.w < rb.buf.length then
    let rb1 : RingBuffer α := { rb with buf := rb.buf.set rb.w (some v) }
    let rb2 : RingBuffer α := { rb1 with w := rb1.w + 1 }
    let rb3 : RingBuffer α := if rb2.w = rb2.size then { rb2 with w := 0 } else rb2
    if rb3.w = rb3.r then
      match rb3.grow with
      | some rb4 => some (rb4, true)
      | none => some ({ rb3 with full := true }, true)
    else some (rb3, true)
  else none

/-- `Peek`. The outer `none` models the panic of `rb.buf[rb.r]` with `r` out
of range; the inner pair is the Go `(interface{}, bool)` return. -/
def Peek (rb : RingBuffer α) : Option (Option α × Bool) :=
  if rb.IsEmpty then some (none, false)
  else if h : rb.r < rb.buf.length then some (rb.buf.get ⟨rb.r, h⟩, true)
  else none

/-- `Pop`. The outer `none` models a panic inside `Peek`. -/
def Pop (rb : RingBuffer α) : Option (RingBuffer α × Option α × Bool) :=
  match rb.Peek with
  | none => none
  | some (v, ok) =>
    if !ok then some (rb, none, false)
    else
      let rb1 : RingBuffer α := { rb with buf := rb.buf.set rb.r none }
      let rb2 : RingBuffer α := { rb1 with r := rb1.r + 1 }
      let rb3 : RingBuffer α := if rb2.r = rb2.size then { rb2 with r := 0 } else rb2
      let rb4 : RingBuffer α := if rb3.full then { rb3 with full := false } else rb3
      some (rb4, v, true)

def Len (rb : RingBuffer α) : Int :=
  if rb.IsEmpty then 0
  else if rb.r < rb.w then (rb.w : Int) - (rb.r : Int)
  else (rb.size : Int) - (rb.r : Int) + (rb.w : Int)

def Cap (rb : RingBuffer α) : Int := (rb.size : Int)

/-- `Reset`: reallocates the backing store at `initSize` and zeroes both
cursors. The source never touches the `full` flag here. -/
def Reset (rb : RingBuffer α) : RingBuffer α :=
  { rb with
    r := 0
    w := 0
    size := rb.initSize
    buf := List.replicate rb.initSize none }

/-- Number of queued values, read off the cursors and the full flag. -/
def lenNat (rb : RingBuffer α) : Nat :=
  if rb.full then rb.size else (rb.size + rb.w - rb.r) % rb.size

/-- The queued values in FIFO order: the circular window of `lenNat` slots
starting at the read cursor. -/
def window (rb : RingBuffer α) : List (Option α) :=
  (rb.buf.rotate rb.r).take rb.lenNat

/-- Well-formedness of a buffer state: the backing store matches `size`, all
sizes fit in a Go `int`, cursors are in range, and the full flag is only set
when the cursors coincide. Established by the constructor (for positive
`initSize`) and preserved by every operation. -/
def Valid (rb : RingBuffer α) : Prop :=
  rb.buf.length = rb.size ∧ 0 < rb.size ∧ rb.size ≤ maxIntNat ∧
    rb.maxSize ≤ maxIntNat ∧ 0 < rb.initSize ∧ rb.initSize ≤ maxIntNat ∧
    rb.r < rb.size ∧ rb.w < rb.size ∧ (rb.full = true → rb.r = rb.w)

instance (rb : RingBuffer α) : Decidable (rb.Valid) := by
  unfold Valid; infer_instance

/-- Intermediate state of `Put` (the source's `rb3`): value written at the
write cursor, cursor advanced with wrap-around. -/
def putWrite (rb : RingBuffer α) (v : α) : RingBuffer α :=
  { rb with
    buf := rb.buf.set rb.w (some v)
    w := if rb.w + 1 = rb.size then 0 else rb.w + 1 }

/-- Intermediate state of `Pop`: slot under the read cursor cleared, cursor
advanced with wrap-around, full flag cleared. -/
def popAdvance (rb : RingBuffer α) : RingBuffer α :=
  { rb with
    buf := rb.buf.set rb.r none
    r := if rb.r + 1 = rb.size then 0 else rb.r + 1
    full := false }

/-- Run a sequence of `Put`s, collecting the returned flags; `none` if any
step panics. -/
def runPuts (rb : RingBuffer α) : List α → Option (RingBuffer α × List Bool)
  | [] => some (rb, [])
  | v :: vs =>
    match rb.Put v with
    | none => none
    | some (rb', b) =>
      match runPuts rb' vs with
      | none => none
      | some (rb2, bs) => some (rb2, b :: bs)

/-- Run `n` `Pop`s, collecting the returned values and flags; `none` if any
step panics. -/
def runPops (rb : RingBuffer α) : Nat → Option (RingBuffer α × List (Option α × Bool))
  | 0 => some (rb, [])
  | n + 1 =>
    match rb.Pop with
    | none => none
    | some (rb', v, ok) =>
      match runPops rb' n with
      | none => none
      | some (rb2, xs) => some (rb2, (v, ok) :: xs)

/-- A state is blocked for further admissions only once the queued contents
have reached the configured (or absolute) capacity limit. -/
def blockedOnlyAtCapacity (rb : RingBuffer α) : Prop :=
  rb.full = true →
    (0 < rb.maxSize ∧ rb.maxSize ≤ rb.lenNat) ∨
      (rb.maxSize = 0 ∧ rb.lenNat = maxIntNat)

/-- `true` iff every `Put` in the batch succeeds (and none panics). -/
def putsAllOk (rb : RingBuffer α) (vs : List α) : Bool :=
  match rb.runPuts vs with
  | none => false
  | some (_, bs) => bs.all (fun b => b)

/-- One mutation of a ring buffer through its public interface (a `Put`, a
`Pop` or a `Reset`); panicking calls yield no step. -/
inductive RBStep : RingBuffer α → RingBuffer α → Prop where
  | put (v : α) (rb rb' : RingBuffer α) (b : Bool) :
      rb.Put v = some (rb', b) → RBStep rb rb'
  | pop (rb rb' : RingBuffer α) (x : Option α) (ok : Bool) :
      rb.Pop = some (rb', x, ok) → RBStep rb rb'
  | reset (rb : RingBuffer α) : RBStep rb rb.Reset

/-- Concrete state: `NewSelfAdptiveRingBuffer(1, 2)` after `Put 7; Put 8`
(checked by `decide` in the counterexample below): completely full, the
full flag set because the buffer is at `maxSize`. -/
def rbC5pre : RingBuffer Nat :=
  { buf := [some 7, some 8]
    maxSize := 2
    initSize := 1
    size := 2
    r := 0
    w := 0
    full := true }

/-- `rbC5pre` after `Reset()`: the stale full flag survives while the store
shrinks back to `initSize = 1 < maxSize`. -/
def rbC5 : RingBuffer Nat := rbC5pre.Reset

/-- Concrete completely full two-slot unbounded buffer (witness for grow). -/
def rbC6 : RingBuffer Nat :=
  { buf := [some 1, some 2]
    maxSize := 0
    initSize := 2
    size := 2
    r := 0
    w := 0
    full := true }

/-- The expected result of `rbC6.grow`. -/
def rbC6grown : RingBuffer Nat :=
  { buf := [some 1, some 2, none, none]
    maxSize := 0
    initSize := 2
    size := 4
    r := 0
    w := 2
    full := true }

/-- Concrete one-slot buffer with the full flag set (witness for `Reset`). -/
def rbC9 : RingBuffer Nat :=
  { buf := [some 3]
    maxSize := 0
    initSize := 1
    size := 1
    r := 0
    w := 0
    full := true }

/-- Concrete valid state above the growth threshold (witness for `growCap`). -/
def rbC4 : RingBuffer Nat :=
  { buf := List.replicate 2048 none
    maxSize := 3000
    initSize := 2
    size := 2048
    r := 0
    w := 0
    full := false }

end RingBuffer

/-! ## The `maxinflight` token buckets

Each strategy is embedded with sequential (interleaving-free) semantics: an
atomic load/CAS/add sequence executes with no concurrent interference, the
channel is a counter of buffered sentinels, and the mutex serialises the
body. -/

/-- `atomicTokenBucket`: `max` is a Go `uint32`, `count` a Go `int64`
(a larger range than `max` to avoid overflow when increasing `count`). -/
structure AtomicTokenBucket where
  max : Nat
  count : Int
  deriving DecidableEq, Repr

def newAtomic (n : Nat) : AtomicTokenBucket := { max := n, count := 0 }

/-- `atomicTokenBucket.TryAcquire` under sequential semantics: the CAS in
the `count < 0` branch always succeeds (no interference), so the fall
through after a failed CAS is never taken. -/
def atomicTryAcquire (f : AtomicTokenBucket) : AtomicTokenBucket × Bool :=
  let count := f.count
  let max : Int := (f.max : Int)
  if count < 0 then ({ f with count := 1 }, true)
  else if count ≥ max then (f, false)
  else
    let count := f.count + 1
    if count > max then ({ f with count := count - 1 }, false)
    else ({ f with count := count }, true)

/-- `atomicTokenBucket.Release`. -/
def atomicRelease (f : AtomicTokenBucket) : AtomicTokenBucket :=
  if f.count ≤ 0 then f
  else
    let count := f.count - 1
    if count < 0 then { f with count := 0 } else { f with count := count }

/-- `atomicTokenBucket.Resize`. -/
def atomicResize (f : AtomicTokenBucket) (n : Nat) : AtomicTokenBucket :=
  if f.max ≠ n then { f with max := n } else f

/-- `channelTokenBucket`: `len` values buffered in a channel of capacity
`cap` fixed at construction. -/
structure ChannelTokenBucket where
  len : Nat
  cap : Nat
  deriving DecidableEq, Repr

def newChannel (n : Nat) : ChannelTokenBucket := { len := 0, cap := n }

/-- `channelTokenBucket.TryAcquire`: non-blocking send (`select`/`default`),
which succeeds exactly when the channel buffer has room. -/
def channelTryAcquire (l : ChannelTokenBucket) : ChannelTokenBucket × Bool :=
  if l.len < l.cap then ({ l with len := l.len + 1 }, true) else (l, false)

/-- `channelTokenBucket.Release`: non-blocking receive, a no-op when empty. -/
def channelRelease (l : ChannelTokenBucket) : ChannelTokenBucket :=
  if 0 < l.len then { l with len := l.len - 1 } else l

/-- `channelTokenBucket.Resize`: not implemented in the source (no-op). -/
def channelResize (l : ChannelTokenBucket) (_n : Nat) : ChannelTokenBucket := l

/-- `mutexTokenBucket` (the mutex itself needs no model: its sole effect is
to serialise bodies, which the sequential semantics already does). -/
structure MutexTokenBucket where
  count : Int
  max : Nat
  deriving DecidableEq, Repr

def newMutex (n : Nat) : MutexTokenBucket := { count := 0, max := n }

/-- `mutexTokenBucket.TryAcquire`: the double check mirrors the source
(once before and once under the lock). -/
def mutexTryAcquire (f : MutexTokenBucket) : MutexTokenBucket × Bool :=
  if f.count ≥ (f.max : Int) then (f, false)
  else if f.count ≥ (f.max : Int) then (f, false)
  else ({ f with count := f.count + 1 }, true)

/-- `mutexTokenBucket.Release`. -/
def mutexRelease (f : MutexTokenBucket) : MutexTokenBucket :=
  if f.count = 0 then f
  else if f.count = 0 then f
  else { f with count := f.count - 1 }

/-- `mutexTokenBucket.Resize`. -/
def mutexResize (f : MutexTokenBucket) (n : Nat) : MutexTokenBucket :=
  if f.max = n then f
  else if f.max ≠ n then { f with max := n } else f

/-- One call through the `TokenBucket` interface. -/
inductive BucketOp where
  | tryAcquire
  | release
  | resize (n : Nat)
  deriving DecidableEq, Repr

def mutexRun (f : MutexTokenBucket) : List BucketOp → MutexTokenBucket
  | [] => f
  | op :: ops =>
    mutexRun (match op with
      | .tryAcquire => (mutexTryAcquire f).1
      | .release => mutexRelease f
      | .resize n => mutexResize f n) ops

def channelRun (l : ChannelTokenBucket) : List BucketOp → ChannelTokenBucket
  | [] => l
  | op :: ops =>
    channelRun (match op with
      | .tryAcquire => (channelTryAcquire l).1
      | .release => channelRelease l
      | .resize n => channelResize l n) ops

/-- `k` successive `TryAcquire` calls, collecting the returned flags. -/
def acquireN {σ : Type} (acq : σ → σ × Bool) : Nat → σ → σ × List Bool
  | 0, s => (s, [])
  | n + 1, s =>
    let p := acq s
    let q := acquireN acq n p.1
    (q.1, p.2 :: q.2)

/-! ## The adaptive channel (`chanx/channx.go`)

`ChannX` couples two native channels and one ring buffer, driven by a
single dispatch goroutine. The system (one producer sending a fixed list of
values then calling `Close()`, the dispatch goroutine, one consumer) is
embedded as a small-step transition relation `ChanStep`. Channel capacities
only restrict which interleavings are possible; an unbuffered channel is
over-approximated as a one-slot buffer (`effCap`), which only adds
schedules, so every real execution is covered. -/

/-- The applied configuration (the `config` struct after the option setters
ran): `InChanSize`/`OutChanSzie` only accept nonnegative sizes and
`InitBufferSize` only positive ones (default 2), hence the `Nat` fields;
`MaxBufferSize` accepts any `int`. -/
structure ChanConfig where
  inChanSize : Nat
  outChanSize : Nat
  initBufferSize : Nat
  maxBufferSize : Int
  dropClosedBufferData : Bool
  deriving DecidableEq, Repr

/-- A configuration the option setters can produce, with sizes in the Go
`int` range. -/
def WFConfig (cfg : ChanConfig) : Prop :=
  1 ≤ cfg.initBufferSize ∧ cfg.initBufferSize ≤ maxIntNat ∧
    cfg.maxBufferSize ≤ maxInt

/-- `newDefuerConfig()` (sic): zero channel buffers, ring buffer starting at
2, unbounded, data preserved on close. -/
def newDefuerConfig : ChanConfig :=
  { inChanSize := 0
    outChanSize := 0
    initBufferSize := 2
    maxBufferSize := 0
    dropClosedBufferData := false }

/-- Effective buffered capacity used to gate channel sends: capacity 0
means rendezvous, over-approximated as one slot. -/
def effCap (n : Nat) : Nat := max n 1

/-- Control location of the dispatch goroutine inside `process()` /
`mustPutToBuffer` / `processTermination`. -/
inductive DispatchPC (α : Type) where
  | outerSelect : DispatchPC α
  | innerSelect : DispatchPC α
  | awaitOut (v : α) : DispatchPC α
  | termBuf (poped : Option α) : DispatchPC α
  | termPoped (poped : Option α) : DispatchPC α
  | termIn : DispatchPC α
  | done : DispatchPC α
  deriving DecidableEq, Repr

/-- Global state: the producer's unsent values, the two native channels'
buffered contents, the close signal, the ring buffer, the consumer's
received values, and the dispatcher's control location. -/
structure ChanState (α : Type) where
  pending : List α
  inq : List α
  inClosed : Bool
  closeReq : Bool
  buffer : RingBuffer α
  outq : List (Option α)
  outClosed : Bool
  delivered : List (Option α)
  pc : DispatchPC α
  deriving DecidableEq, Repr

variable {α : Type}

/-- The state right after `New(...)`: the dispatch goroutine is at the top
of its outer loop, everything else empty. -/
def initChanState (cfg : ChanConfig) (vs : List α) : ChanState α :=
  { pending := vs
    inq := []
    inClosed := false
    closeReq := false
    buffer := RingBuffer.NewSelfAdptiveRingBuffer α cfg.initBufferSize
      cfg.maxBufferSize
    outq := []
    outClosed := false
    delivered := []
    pc := .outerSelect }

/-- Entry into `processTermination(poped)`: its first statement is
`close(ch.in)`. Under the drop policy the ring buffer is reset and `out`
closed at once (data already in `out` stays readable); otherwise the flush
continues at `termBuf`. -/
def enterTermination (cfg : ChanConfig) (s : ChanState α) (poped : Option α) :
    ChanState α :=
  if cfg.dropClosedBufferData then
    { s with
      inClosed := true
      buffer := s.buffer.Reset
      outClosed := true
      pc := .done }
  else
    { s with
      inClosed := true
      pc := .termBuf poped }

/-- One small step of the system: a producer send or `Close()`, one reaction
of the dispatch goroutine, or one consumer receive. -/
inductive ChanStep (cfg : ChanConfig) : ChanState α → ChanState α → Prop where
  | send (s : ChanState α) (v : α) (rest : List α) :
      s.pending = v :: rest → s.inClosed = false →
      s.inq.length < effCap cfg.inChanSize →
      ChanStep cfg s { s with pending := rest, inq := s.inq ++ [v] }
  | closeSignal (s : ChanState α) :
      s.pending = [] →
      ChanStep cfg s { s with closeReq := true }
  | recvDirect (s : ChanState α) (v : α) (rest : List α) :
      (s.pc = .outerSelect ∨ s.pc = .innerSelect) →
      s.inq = v :: rest → s.buffer.IsEmpty = true →
      s.outq.length < effCap cfg.outChanSize →
      ChanStep cfg s
        { s with inq := rest, outq := s.outq ++ [some v], pc := .outerSelect }
  | recvPut (s : ChanState α) (v : α) (rest : List α) (b' : RingBuffer α) :
      (s.pc = .outerSelect ∨ s.pc = .innerSelect) →
      s.inq = v :: rest → s.buffer.Put v = some (b', true) →
      ChanStep cfg s { s with
        inq := rest
        buffer := b'
        pc := if b'.IsEmpty then .outerSelect else .innerSelect }
  | recvPutFull (s : ChanState α) (v : α) (rest : List α) (b' : RingBuffer α) :
      (s.pc = .outerSelect ∨ s.pc = .innerSelect) →
      s.inq = v :: rest → s.buffer.Put v = some (b', false) →
      ChanStep cfg s { s with inq := rest, buffer := b', pc := .awaitOut v }
  | closeSelect (s : ChanState α) :
      (s.pc = .outerSelect ∨ s.pc = .innerSelect) → s.closeReq = true →
      ChanStep cfg s (enterTermination cfg s none)
  | sendHead (s : ChanState α) (x : Option α) (b' : RingBuffer α)
      (y : Option α) (ok : Bool) :
      s.pc = .innerSelect →
      s.buffer.Peek = some (x, true) →
      s.outq.length < effCap cfg.outChanSize →
      s.buffer.Pop = some (b', y, ok) →
      ChanStep cfg s { s with
        outq := s.outq ++ [x]
        buffer := if b'.NeedReset then b'.Reset else b'
        pc := if (if b'.NeedReset then b'.Reset else b').IsEmpty then
          DispatchPC.outerSelect else DispatchPC.innerSelect }
  | awaitSend (s : ChanState α) (v : α) (x : Option α) (b' b2 : RingBuffer α)
      (y : Option α) (ok ok2 : Bool) :
      s.pc = .awaitOut v →
      s.buffer.Peek = some (x, true) →
      s.outq.length < effCap cfg.outChanSize →
      s.buffer.Pop = some (b', y, ok) →
      b'.Put v = some (b2, ok2) →
      ChanStep cfg s { s with
        outq := s.outq ++ [x]
        buffer := b2
        pc := if b2.IsEmpty then .outerSelect else .innerSelect }
  | awaitClose (s : ChanState α) (v : α) :
      s.pc = .awaitOut v → s.closeReq = true →
      ChanStep cfg s (enterTermination cfg s (some v))
  | termBufSend (s : ChanState α) (p : Option α) (b' : RingBuffer α)
      (y : Option α) (ok : Bool) :
      s.pc = .termBuf p → s.buffer.IsEmpty = false →
      s.buffer.Pop = some (b', y, ok) →
      s.outq.length < effCap cfg.outChanSize →
      ChanStep cfg s { s with outq := s.outq ++ [y], buffer := b' }
  | termBufDone (s : ChanState α) (p : Option α) :
      s.pc = .termBuf p → s.buffer.IsEmpty = true →
      ChanStep cfg s { s with buffer := s.buffer.Reset, pc := .termPoped p }
  | termPopedSend (s : ChanState α) (v : α) :
      s.pc = .termPoped (some v) →
      s.outq.length < effCap cfg.outChanSize →
      ChanStep cfg s { s with outq := s.outq ++ [some v], pc := .termIn }
  | termPopedNone (s : ChanState α) :
      s.pc = .termPoped none →
      ChanStep cfg s { s with pc := .termIn }
  | termInSend (s : ChanState α) (v : α) (rest : List α) :
      s.pc = .termIn → s.inq = v :: rest →
      s.outq.length < effCap cfg.outChanSize →
      ChanStep cfg s { s with inq := rest, outq := s.outq ++ [some v] }
  | termInDone (s : ChanState α) :
      s.pc = .termIn → s.inq = [] →
      ChanStep cfg s { s with outClosed := true, pc := .done }
  | consume (s : ChanState α) (x : Option α) (rest : List (Option α)) :
      s.outq = x :: rest →
      ChanStep cfg s { s with outq := rest, delivered := s.delivered ++ [x] }

/-- States reachable from `New` with a producer committed to sending `vs`
then closing. -/
inductive ChanReach (cfg : ChanConfig) (vs : List α) : ChanState α → Prop where
  | init : ChanReach cfg vs (initChanState cfg vs)
  | step (s s' : ChanState α) :
      ChanReach cfg vs s → ChanStep cfg s s' → ChanReach cfg vs s'

/-- The value held by the dispatcher itself, in flow order right after the
ring-buffer contents: the admitted value waiting in `mustPutToBuffer`, or
the `poped` argument of `processTermination`. -/
def heldAt : DispatchPC α → List (Option α)
  | .awaitOut v => [some v]
  | .termBuf (some v) => [some v]
  | .termPoped (some v) => [some v]
  | _ => []

/-- Every value of the system in flow order: delivered, then buffered in
`out`, then queued in the ring buffer, then held by the dispatcher, then
buffered in `in`, then not yet sent. -/
def chanSeq (s : ChanState α) : List (Option α) :=
  s.delivered ++ s.outq ++ s.buffer.window ++ heldAt s.pc ++
    s.inq.map some ++ s.pending.map some

/-- Whether the dispatcher has entered `processTermination` (whose first
statement closes `in`). -/
def isTermPC : DispatchPC α → Bool
  | .termBuf _ => true
  | .termPoped _ => true
  | .termIn => true
  | .done => true
  | _ => false

/-- Control-location-specific facts, as a function of the location and the
state components it constrains. -/
def pcFacts (pc : DispatchPC α) (win : List (Option α)) (inq pend : List α)
    (outc creq : Bool) : Prop :=
  match pc with
  | .termBuf _ => creq = true
  | .termPoped _ => win = [] ∧ creq = true
  | .termIn => win = [] ∧ creq = true
  | .done => win = [] ∧ inq = [] ∧ pend = [] ∧ outc = true
  | _ => True

/-- Control-location-specific facts of a state. -/
def chanPcInv (s : ChanState α) : Prop :=
  pcFacts s.pc s.buffer.window s.inq s.pending s.outClosed s.closeReq

/-- The inductive invariant for the non-drop policy: the ring buffer is
valid, `Close()` only fires after the producer is done, `out` closes only
once the flush is complete, and the values in flight concatenate to exactly
the committed send sequence. -/
def ChanInv (vs : List α) (s : ChanState α) : Prop :=
  s.buffer.Valid ∧
    (s.closeReq = true → s.pending = []) ∧
    (s.outClosed = true → s.pc = .done) ∧
    s.inClosed = isTermPC s.pc ∧
    chanPcInv s ∧
    chanSeq s = vs.map some

/-- Default configuration, two values to send: concrete states of a short
execution (used to exercise the model). -/
def c2s0 : ChanState Nat := initChanState newDefuerConfig []

def c2s1 : ChanState Nat := { c2s0 with closeReq := true }

def c2s2 : ChanState Nat := enterTermination newDefuerConfig c2s1 none

/-- Concrete states of a complete run of `[42]` through the default
configuration: send, `Close()`, direct delivery, close-select, buffer flush,
no poped value, input drain done, consume. -/
def c1s0 : ChanState Nat := initChanState newDefuerConfig [42]

def c1s1 : ChanState Nat := { c1s0 with pending := [], inq := [42] }

def c1s2 : ChanState Nat := { c1s1 with closeReq := true }

def c1s3 : ChanState Nat :=
  { c1s2 with inq := [], outq := [some 42], pc := .outerSelect }

def c1s4 : ChanState Nat := enterTermination newDefuerConfig c1s3 none

def c1s5 : ChanState Nat :=
  { c1s4 with buffer := c1s4.buffer.Reset, pc := .termPoped none }

def c1s6 : ChanState Nat := { c1s5 with pc := .termIn }

def c1s7 : ChanState Nat := { c1s6 with outClosed := true, pc := .done }

/-- The final state of a complete run of `[42]` through the default
configuration. -/
def c1sFinal : ChanState Nat :=
  { pending := []
    inq := []
    inClosed := true
    closeReq := true
    buffer := RingBuffer.NewSelfAdptiveRingBuffer Nat 2 0
    outq := []
    outClosed := true
    delivered := [some 42]
    pc := .done }

/-! ## Theorems about the ring buffer -/

theorem wrap64_eq_self {x : Int} (h1 : -(2 ^ 63) ≤ x) (h2 : x < 2 ^ 63) :
    wrap64 x = x := by
  unfold wrap64
  rw [Int.emod_eq_of_lt (by omega) (by omega)]
  omega

theorem wrap64_of_overflow {x : Int} (h1 : 2 ^ 63 ≤ x) (h2 : x < 2 ^ 63 + 2 ^ 64) :
    wrap64 x = x - 2 ^ 64 := by
  unfold wrap64
  omega

theorem add_mod_cancel_left_of_lt {n r i k : Nat} (hi : i < n) (hk : k < n)
    (h : (r + i) % n = (r + k) % n) : i = k := by
  have h2 : i ≡ k [MOD n] := Nat.ModEq.add_left_cancel' r h
  have h3 : i % n = k % n := h2
  rwa [Nat.mod_eq_of_lt hi, Nat.mod_eq_of_lt hk] at h3

/-- Writing at circular position `(n + k) % len` commutes with rotating the
list by `n`: the write lands at linear position `k` of the rotation. -/
theorem rotate_set_mod {β : Type} (l : List β) (n k : Nat) (x : β)
    (hk : k < l.length) :
    (l.set ((n + k) % l.length) x).rotate n = (l.rotate n).set k x := by
  apply List.ext_getElem?
  intro i
  by_cases hi : i < l.length
  · have hi1 : i < (l.set ((n + k) % l.length) x).length := by
      rwa [List.length_set]
    rw [List.getElem?_rotate hi1, List.length_set, List.getElem?_set]
    rw [List.getElem?_set, List.getElem?_rotate hi]
    have hmod : (i + n) % l.length < l.length := Nat.mod_lt _ (by omega)
    by_cases hik : k = i
    · subst hik
      have he : (n + k) % l.length = (k + n) % l.length := by rw [Nat.add_comm]
      have hmod2 : (n + k) % l.length < l.length := Nat.mod_lt _ (by omega)
      simp [he, hmod, hmod2, hk]
    · have hne : (n + k) % l.length ≠ (i + n) % l.length := by
        intro hcon
        rw [Nat.add_comm i n] at hcon
        exact hik (add_mod_cancel_left_of_lt hk hi hcon)
      rw [if_neg hne, if_neg hik]
  · have h1 : ((l.set ((n + k) % l.length) x).rotate n).length ≤ i := by
      rw [List.length_rotate, List.length_set]; omega
    have h2 : (((l.rotate n).set k x)).length ≤ i := by
      rw [List.length_set, List.length_rotate]; omega
    rw [List.getElem?_eq_none h1, List.getElem?_eq_none h2]

theorem take_set_succ {β : Type} (l : List β) (k : Nat) (x : β) (hk : k < l.length) :
    (l.set k x).take (k + 1) = l.take k ++ [x] := by
  rw [List.set_eq_take_cons_drop x hk]
  have hl : (l.take k).length = k := by rw [List.length_take]; omega
  calc (List.take k l ++ x :: List.drop (k + 1) l).take (k + 1)
      = (List.take k l ++ x :: List.drop (k + 1) l).take ((List.take k l).length + 1) := by
        rw [hl]
    _ = List.take k l ++ (x :: List.drop (k + 1) l).take 1 := List.take_append 1
    _ = List.take k l ++ [x] := by simp

theorem set_last_eq_take_append {β : Type} (l : List β) (x : β) (h : 0 < l.length) :
    l.set (l.length - 1) x = l.take (l.length - 1) ++ [x] := by
  rw [List.set_eq_take_cons_drop x (by omega)]
  have h2 : l.length - 1 + 1 = l.length := by omega
  rw [h2, List.drop_length]

theorem if_wrap_eq_mod {a s : Nat} (ha : a < s) :
    (if a + 1 = s then 0 else a + 1) = (a + 1) % s := by
  split_ifs with h1
  · rw [h1, Nat.mod_self]
  · rw [Nat.mod_eq_of_lt (by omega)]

namespace RingBuffer

variable {α : Type}

/-- Closed form of `growCap` on any representable state: a no-op at or above
`maxSize`; otherwise doubling below the 1024 threshold and `size + (size +
3*1024)/4` above it, saturated at `maxInt` and clamped to `maxSize`. -/
theorem growCap_eq (rb : RingBuffer α) (h1 : 0 < rb.size)
    (h2 : rb.size ≤ maxIntNat) (h3 : rb.maxSize ≤ maxIntNat) :
    rb.growCap =
      if 0 < rb.maxSize ∧ rb.maxSize ≤ rb.size then (rb.size : Int)
      else
        let c : Int :=
          if (rb.size : Int) < 1024 then 2 * (rb.size : Int)
          else min ((rb.size : Int) + ((rb.size : Int) + 3 * 1024) / 4) maxInt
        if 0 < rb.maxSize ∧ (rb.maxSize : Int) < c then (rb.maxSize : Int) else c := by
  simp only [growCap, wrap64, growThreshold, maxInt, maxIntNat] at *
  split_ifs <;> omega

/-- `growCap` never exceeds `maxInt` on a representable state. -/
theorem growCap_le_maxInt (rb : RingBuffer α) (h1 : 0 < rb.size)
    (h2 : rb.size ≤ maxIntNat) (h3 : rb.maxSize ≤ maxIntNat) :
    rb.growCap ≤ maxInt := by
  rw [growCap_eq rb h1 h2 h3]
  simp only [maxInt, maxIntNat] at *
  split_ifs <;> omega

/-- `growCap` exceeds the current size exactly when the buffer may still
grow: below a positive `maxSize`, or unbounded and not yet at `maxInt`. -/
theorem growCap_gt_size_iff (rb : RingBuffer α) (h1 : 0 < rb.size)
    (h2 : rb.size ≤ maxIntNat) (h3 : rb.maxSize ≤ maxIntNat) :
    (rb.size : Int) < rb.growCap ↔
      ¬ ((0 < rb.maxSize ∧ rb.maxSize ≤ rb.size) ∨
        (rb.maxSize = 0 ∧ rb.size = maxIntNat)) := by
  rw [growCap_eq rb h1 h2 h3]
  simp only [maxInt, maxIntNat] at *
  split_ifs <;> omega

/-- `grow` returns `none` exactly when the buffer cannot grow further. -/
theorem grow_eq_none_iff (rb : RingBuffer α) (h1 : 0 < rb.size)
    (h2 : rb.size ≤ maxIntNat) (h3 : rb.maxSize ≤ maxIntNat) :
    rb.grow = none ↔
      (0 < rb.maxSize ∧ rb.maxSize ≤ rb.size) ∨
        (rb.maxSize = 0 ∧ rb.size = maxIntNat) := by
  have h := growCap_gt_size_iff rb h1 h2 h3
  by_cases hle : rb.growCap ≤ (rb.size : Int)
  · simp only [grow, if_pos hle, true_iff]
    by_contra hc
    omega
  · simp only [grow, if_neg hle, reduceCtorEq, false_iff]
    exact h.mp (by omega)

theorem lenNat_closed (rb : RingBuffer α) (h : rb.Valid) :
    rb.lenNat = if rb.full then rb.size
      else if rb.r ≤ rb.w then rb.w - rb.r else rb.size + rb.w - rb.r := by
  obtain ⟨-, hs, -, -, -, -, hr, hw, -⟩ := h
  unfold lenNat
  rcases hfull : rb.full with _ | _
  · simp only [if_false, Bool.false_eq_true]
    by_cases hrw : rb.r ≤ rb.w
    · rw [if_pos hrw]
      have he : rb.size + rb.w - rb.r = rb.size + (rb.w - rb.r) := by omega
      rw [he, Nat.add_mod_left, Nat.mod_eq_of_lt (by omega)]
    · rw [if_neg hrw, Nat.mod_eq_of_lt (by omega)]
  · simp

theorem lenNat_le_size (rb : RingBuffer α) (h : rb.Valid) : rb.lenNat ≤ rb.size := by
  have hc := lenNat_closed rb h
  obtain ⟨-, hs, -, -, -, -, hr, hw, -⟩ := h
  rw [hc]; split_ifs <;> omega

theorem lenNat_lt_size (rb : RingBuffer α) (h : rb.Valid) (hf : rb.full = false) :
    rb.lenNat < rb.size := by
  have hc := lenNat_closed rb h
  obtain ⟨-, hs, -, -, -, -, hr, hw, -⟩ := h
  rw [hc, hf]; simp only [Bool.false_eq_true, if_false]
  split_ifs <;> omega

theorem lenNat_eq_zero_iff (rb : RingBuffer α) (h : rb.Valid) :
    rb.lenNat = 0 ↔ (rb.full = false ∧ rb.r = rb.w) := by
  have hc := lenNat_closed rb h
  obtain ⟨-, hs, -, -, -, -, hr, hw, hfi⟩ := h
  rw [hc]
  rcases hfull : rb.full with _ | _
  · simp only [Bool.false_eq_true, if_false, true_and]
    split_ifs <;> omega
  · simp only [if_true, true_iff]
    constructor
    · omega
    · intro hcon
      simp at hcon

theorem isEmpty_iff_lenNat (rb : RingBuffer α) (h : rb.Valid) :
    rb.IsEmpty = true ↔ rb.lenNat = 0 := by
  rw [lenNat_eq_zero_iff rb h]
  unfold IsEmpty
  rcases hfull : rb.full with _ | _ <;> simp

theorem length_window (rb : RingBuffer α) (h : rb.Valid) :
    rb.window.length = rb.lenNat := by
  have h1 := lenNat_le_size rb h
  obtain ⟨hlen, -, -, -, -, -, -, -, -⟩ := h
  unfold window
  rw [List.length_take, List.length_rotate, hlen]
  omega

theorem window_eq_nil_iff (rb : RingBuffer α) (h : rb.Valid) :
    rb.window = [] ↔ rb.lenNat = 0 := by
  constructor
  · intro hw
    have := length_window rb h
    rw [hw] at this
    simpa using this.symm
  · intro hl
    unfold window
    rw [hl, List.take_zero]

theorem w_index (rb : RingBuffer α) (h : rb.Valid) (hf : rb.full = false) :
    (rb.r + rb.lenNat) % rb.size = rb.w := by
  have hc := lenNat_closed rb h
  obtain ⟨-, hs, -, -, -, -, hr, hw, -⟩ := h
  rw [hc, hf]
  simp only [Bool.false_eq_true, if_false]
  by_cases hrw : rb.r ≤ rb.w
  · rw [if_pos hrw]
    have he : rb.r + (rb.w - rb.r) = rb.w := by omega
    rw [he, Nat.mod_eq_of_lt hw]
  · rw [if_neg hrw]
    have he : rb.r + (rb.size + rb.w - rb.r) = rb.size + rb.w := by omega
    rw [he, Nat.add_mod_left, Nat.mod_eq_of_lt hw]

/-- `growCap` reads only the `size` and `maxSize` fields. -/
theorem growCap_congr (rb1 rb2 : RingBuffer α) (hs : rb1.size = rb2.size)
    (hm : rb1.maxSize = rb2.maxSize) : rb1.growCap = rb2.growCap := by
  unfold growCap
  rw [hs, hm]

/-- Shape of a successful `grow`. -/
theorem grow_spec (rb : RingBuffer α) (hgt : (rb.size : Int) < rb.growCap) :
    rb.grow = some { rb with
      r := 0
      w := rb.size
      size := rb.growCap.toNat
      buf := (rb.buf.drop rb.r ++ rb.buf.take rb.r) ++
        List.replicate (rb.growCap.toNat - rb.size) none } := by
  simp only [grow, if_neg (by omega : ¬ rb.growCap ≤ (rb.size : Int))]

theorem Put_of_full (rb : RingBuffer α) (v : α) (hf : rb.full = true) :
    rb.Put v = some (rb, false) := by
  simp [Put, IsFull, hf]

/-- Master specification of a `Put` on a valid, non-full buffer: it returns
`true` and appends the value to the queued window; the buffer may grow but
never shrinks; and the full flag is raised only when the buffer has reached
its growth limit. -/
theorem Put_spec (rb : RingBuffer α) (v : α) (h : rb.Valid) (hf : rb.full = false) :
    ∃ rb', rb.Put v = some (rb', true) ∧ rb'.Valid ∧
      rb'.window = rb.window ++ [some v] ∧
      rb'.maxSize = rb.maxSize ∧ rb'.initSize = rb.initSize ∧
      rb'.lenNat = rb.lenNat + 1 ∧ rb.size ≤ rb'.size ∧
      (rb'.full = true → rb'.size = rb.size ∧
        ((0 < rb.maxSize ∧ rb.maxSize ≤ rb.size) ∨
          (rb.maxSize = 0 ∧ rb.size = maxIntNat))) := by
  obtain ⟨hlen, hs, hsM, hmM, hi0, hiM, hr, hw, hfi⟩ := h
  have hh : rb.Valid := ⟨hlen, hs, hsM, hmM, hi0, hiM, hr, hw, hfi⟩
  have hwlen : rb.w < rb.buf.length := by omega
  have hLlt : rb.lenNat < rb.size := lenNat_lt_size rb hh hf
  have hLc := lenNat_closed rb hh
  rw [hf] at hLc
  simp only [Bool.false_eq_true, if_false] at hLc
  have hrotlen : (rb.buf.rotate rb.r).length = rb.size := by
    rw [List.length_rotate, hlen]
  have hrotset : (rb.buf.set rb.w (some v)).rotate rb.r
      = (rb.buf.rotate rb.r).set rb.lenNat (some v) := by
    conv_lhs => rw [← w_index rb hh hf, ← hlen]
    exact rotate_set_mod rb.buf rb.r rb.lenNat (some v) (by omega)
  -- field computations for the intermediate state
  have hpbuf : (putWrite rb v).buf = rb.buf.set rb.w (some v) := rfl
  have hpw : (putWrite rb v).w = if rb.w + 1 = rb.size then 0 else rb.w + 1 := rfl
  have hpr : (putWrite rb v).r = rb.r := rfl
  have hpsize : (putWrite rb v).size = rb.size := rfl
  have hpmax : (putWrite rb v).maxSize = rb.maxSize := rfl
  have hpinit : (putWrite rb v).initSize = rb.initSize := rfl
  have hpfull : (putWrite rb v).full = rb.full := rfl
  have hplen : (putWrite rb v).buf.length = rb.size := by
    rw [hpbuf, List.length_set, hlen]
  have hput : rb.Put v =
      (if (putWrite rb v).w = rb.r then
        match (putWrite rb v).grow with
        | some rb4 => some (rb4, true)
        | none => some ({ putWrite rb v with full := true }, true)
      else some (putWrite rb v, true)) := by
    by_cases hwrap : rb.w + 1 = rb.size
    · simp only [Put, IsFull, hf, Bool.false_eq_true, if_false, hwlen, if_true,
        putWrite, if_pos hwrap, hf]
    · simp only [Put, IsFull, hf, Bool.false_eq_true, if_false, hwlen, if_true,
        putWrite, if_neg hwrap, hf]
  have hw'lt : (if rb.w + 1 = rb.size then 0 else rb.w + 1) < rb.size := by
    split_ifs <;> omega
  have hpvalid : (putWrite rb v).Valid := by
    refine ⟨hplen.trans hpsize.symm, ?_, ?_, ?_, ?_, ?_, ?_, ?_, ?_⟩
    · rw [hpsize]; exact hs
    · rw [hpsize]; exact hsM
    · rw [hpmax]; exact hmM
    · rw [hpinit]; exact hi0
    · rw [hpinit]; exact hiM
    · rw [hpr, hpsize]; exact hr
    · rw [hpw, hpsize]; exact hw'lt
    · rw [hpfull, hf]; intro hx; exact absurd hx (by simp)
  by_cases hcol : (putWrite rb v).w = rb.r
  · -- the write filled the buffer (cursors collided): grow, or mark it full
    have hcol' : (if rb.w + 1 = rb.size then 0 else rb.w + 1) = rb.r := by
      rw [← hpw]; exact hcol
    have hLs : rb.lenNat = rb.size - 1 := by
      rcases Nat.decEq (rb.w + 1) rb.size with hwrap | hwrap
      · rw [if_neg hwrap] at hcol'
        rw [hLc]; split_ifs <;> omega
      · rw [if_pos hwrap] at hcol'
        rw [hLc]; split_ifs <;> omega
    have hwinrb : rb.window = (rb.buf.rotate rb.r).take (rb.size - 1) := by
      unfold window
      rw [hLs]
    have hrot1 : (rb.buf.set rb.w (some v)).rotate rb.r
        = (rb.buf.rotate rb.r).take (rb.size - 1) ++ [some v] := by
      rw [hrotset, hLs]
      have h2 := set_last_eq_take_append (rb.buf.rotate rb.r) (some v) (by omega)
      rw [hrotlen] at h2
      exact h2
    rw [hput, if_pos hcol]
    rcases hg : (putWrite rb v).grow with - | rb4
    · -- cannot grow further: the put still succeeds, marking the buffer full
      have hcant := (grow_eq_none_iff (putWrite rb v)
        (by rw [hpsize]; exact hs) (by rw [hpsize]; exact hsM)
        (by rw [hpmax]; exact hmM)).mp hg
      rw [hpsize, hpmax] at hcant
      refine ⟨{ putWrite rb v with full := true }, rfl, ?_, ?_, hpmax, hpinit,
        ?_, le_of_eq hpsize.symm, fun _ => ⟨hpsize, hcant⟩⟩
      · exact ⟨by simpa [List.length_set] using hplen, hs, hsM,
          by rw [show ({ putWrite rb v with full := true } : RingBuffer α).maxSize
            = rb.maxSize from hpmax]; exact hmM,
          by rw [show ({ putWrite rb v with full := true } : RingBuffer α).initSize
            = rb.initSize from hpinit]; exact hi0,
          by rw [show ({ putWrite rb v with full := true } : RingBuffer α).initSize
            = rb.initSize from hpinit]; exact hiM,
          by rw [show ({ putWrite rb v with full := true } : RingBuffer α).r
            = rb.r from hpr]; exact hr,
          by rw [show ({ putWrite rb v with full := true } : RingBuffer α).w
            = (putWrite rb v).w from rfl, hpw]; exact hw'lt,
          fun _ => hcol.symm⟩
      · show window _ = _
        conv_lhs => unfold window
        rw [show ({ putWrite rb v with full := true } : RingBuffer α).buf
          = rb.buf.set rb.w (some v) from rfl,
          show ({ putWrite rb v with full := true } : RingBuffer α).r
          = rb.r from rfl, hrot1, hwinrb]
        apply List.take_of_length_le
        rw [List.length_append, List.length_take, hrotlen]
        have hlf : ({ putWrite rb v with full := true } : RingBuffer α).lenNat
            = rb.size := by
          unfold lenNat
          rw [show ({ putWrite rb v with full := true } : RingBuffer α).full
            = true from rfl, show ({ putWrite rb v with full := true } :
            RingBuffer α).size = rb.size from rfl]
          simp
        rw [hlf]
        simp only [List.length_cons, List.length_nil]
        omega
      · show lenNat _ = rb.lenNat + 1
        rw [hLs]
        have hSlen : ({ putWrite rb v with full := true } : RingBuffer α).lenNat
            = rb.size := by
          unfold lenNat
          rw [show ({ putWrite rb v with full := true } : RingBuffer α).full
            = true from rfl, show ({ putWrite rb v with full := true } :
            RingBuffer α).size = rb.size from rfl]
          simp
        rw [hSlen]
        omega
    · -- grown: the queued values now sit linearly at the front of the store
      have hgt : (((putWrite rb v)).size : Int) < (putWrite rb v).growCap := by
        rw [growCap_gt_size_iff (putWrite rb v) (by rw [hpsize]; exact hs)
          (by rw [hpsize]; exact hsM) (by rw [hpmax]; exact hmM)]
        intro hcond
        rw [← grow_eq_none_iff (putWrite rb v) (by rw [hpsize]; exact hs)
          (by rw [hpsize]; exact hsM) (by rw [hpmax]; exact hmM)] at hcond
        rw [hcond] at hg
        exact Option.noConfusion hg
      have hrb4 := hg
      rw [grow_spec _ hgt] at hrb4
      have hrb4' := (Option.some_inj.mp hrb4).symm
      have hgle := growCap_le_maxInt (putWrite rb v) (by rw [hpsize]; exact hs)
        (by rw [hpsize]; exact hsM) (by rw [hpmax]; exact hmM)
      have hMeq : (maxIntNat : Int) = maxInt := by norm_num [maxIntNat, maxInt]
      have hsc : rb.size < (putWrite rb v).growCap.toNat ∧
          (putWrite rb v).growCap.toNat ≤ maxIntNat := by
        rw [hpsize] at hgt
        constructor <;> omega
      have hbuf4 : rb4.buf = ((putWrite rb v).buf.drop rb.r ++
          (putWrite rb v).buf.take rb.r) ++
          List.replicate ((putWrite rb v).growCap.toNat - rb.size) none := by
        rw [hrb4', hpr, hpsize]
      have hr4 : rb4.r = 0 := by rw [hrb4']
      have hw4 : rb4.w = rb.size := by rw [hrb4', hpsize]
      have hs4 : rb4.size = (putWrite rb v).growCap.toNat := by rw [hrb4']
      have hm4 : rb4.maxSize = rb.maxSize := by rw [hrb4', hpmax]
      have hi4 : rb4.initSize = rb.initSize := by rw [hrb4', hpinit]
      have hfull4 : rb4.full = false := by rw [hrb4', hpfull, hf]
      have hlen4 : rb4.buf.length = (putWrite rb v).growCap.toNat := by
        rw [hbuf4, List.length_append, List.length_append, List.length_drop,
          List.length_take, hplen, List.length_replicate]
        omega
      have hval4 : rb4.Valid := by
        refine ⟨hlen4.trans hs4.symm, ?_, ?_, ?_, ?_, ?_, ?_, ?_, ?_⟩
        · rw [hs4]; omega
        · rw [hs4]; omega
        · rw [hm4]; exact hmM
        · rw [hi4]; exact hi0
        · rw [hi4]; exact hiM
        · rw [hr4, hs4]; omega
        · rw [hw4, hs4]; omega
        · rw [hfull4]; intro hx; exact absurd hx (by simp)
      have hlen4' : rb4.lenNat = rb.size := by
        unfold lenNat
        rw [hfull4, hs4, hr4, hw4]
        simp only [Bool.false_eq_true, if_false]
        rw [show (putWrite rb v).growCap.toNat + rb.size - 0
          = (putWrite rb v).growCap.toNat + rb.size by omega, Nat.add_mod_left,
          Nat.mod_eq_of_lt (by omega)]
      refine ⟨rb4, rfl, hval4, ?_, hm4, hi4, by rw [hlen4']; omega,
        by rw [hs4]; omega, by rw [hfull4]; intro hx; exact absurd hx (by simp)⟩
      show (rb4.buf.rotate rb4.r).take rb4.lenNat = _
      rw [hr4, List.rotate_zero, hlen4', hbuf4]
      have hrotblen : ((putWrite rb v).buf.drop rb.r ++
          (putWrite rb v).buf.take rb.r).length = rb.size := by
        rw [List.length_append, List.length_drop, List.length_take, hplen]
        omega
      rw [List.take_append_of_le_length (by omega),
        show rb.size = ((putWrite rb v).buf.drop rb.r ++
          (putWrite rb v).buf.take rb.r).length from hrotblen.symm,
        List.take_length]
      have hdt : (putWrite rb v).buf.drop rb.r ++ (putWrite rb v).buf.take rb.r
          = (putWrite rb v).buf.rotate rb.r := by
        rw [List.rotate_eq_drop_append_take]
        rw [hplen]
        omega
      rw [hdt, hpbuf, hrot1, hwinrb]
  · -- no collision: the cursor simply advanced
    have hcol' : ¬ (if rb.w + 1 = rb.size then 0 else rb.w + 1) = rb.r := by
      rw [← hpw]; exact hcol
    have hplenNat : (putWrite rb v).lenNat = rb.lenNat + 1 := by
      have hc2 := lenNat_closed (putWrite rb v) hpvalid
      rw [hpfull, hf] at hc2
      simp only [Bool.false_eq_true, if_false] at hc2
      rw [hc2, hpr, hpsize, hpw, hLc]
      rcases Nat.decEq (rb.w + 1) rb.size with hwrap | hwrap
      · rw [if_neg hwrap] at hcol' ⊢
        split_ifs <;> omega
      · rw [if_pos hwrap] at hcol' ⊢
        split_ifs <;> omega
    refine ⟨putWrite rb v, by rw [hput, if_neg hcol], hpvalid, ?_, hpmax, hpinit,
      hplenNat, le_of_eq hpsize.symm, ?_⟩
    · show ((putWrite rb v).buf.rotate (putWrite rb v).r).take _ = _
      rw [hpr, hpbuf, hplenNat, hrotset]
      exact take_set_succ (rb.buf.rotate rb.r) rb.lenNat (some v) (by omega)
    · rw [hpfull, hf]
      intro hx
      exact absurd hx (by simp)

/-- On a valid non-empty buffer, `Peek` returns the head of the window with
`ok = true`. -/
theorem Peek_spec (rb : RingBuffer α) (h : rb.Valid) (hne : rb.lenNat ≠ 0) :
    ∃ x rest, rb.window = x :: rest ∧ rb.Peek = some (x, true) := by
  obtain ⟨hlen, hs, hsM, hmM, hi0, hiM, hr, hw, hfi⟩ := h
  have hh : rb.Valid := ⟨hlen, hs, hsM, hmM, hi0, hiM, hr, hw, hfi⟩
  have hemp : rb.IsEmpty = false := by
    rcases he : rb.IsEmpty with - | -
    · rfl
    · exact absurd ((isEmpty_iff_lenNat rb hh).mp he) hne
  have hrlen : rb.r < rb.buf.length := by omega
  have hrotlen : (rb.buf.rotate rb.r).length = rb.size := by
    rw [List.length_rotate, hlen]
  rcases hrot : rb.buf.rotate rb.r with - | ⟨a, t⟩
  · rw [hrot] at hrotlen
    simp at hrotlen
    omega
  · have hget : rb.buf.get ⟨rb.r, hrlen⟩ = a := by
      have h0 : (rb.buf.rotate rb.r)[0]? = some a := by rw [hrot]; simp
      rw [List.getElem?_rotate (by omega), Nat.zero_add,
        Nat.mod_eq_of_lt hrlen, List.getElem?_eq_getElem hrlen] at h0
      rw [List.get_eq_getElem]
      simpa using h0
    obtain ⟨L', hL'⟩ : ∃ L', rb.lenNat = L' + 1 := ⟨rb.lenNat - 1, by omega⟩
    refine ⟨a, t.take L', ?_, ?_⟩
    · unfold window
      rw [hrot, hL', List.take_succ_cons]
    · simp only [Peek, hemp, Bool.false_eq_true, if_false, hrlen, dif_pos, hget]

/-- Master specification of `Pop` on a valid non-empty buffer: it removes and
returns the head of the window and clears the full flag. -/
theorem Pop_spec (rb : RingBuffer α) (h : rb.Valid) (hne : rb.lenNat ≠ 0) :
    ∃ x rest, rb.window = x :: rest ∧ rb.Pop = some (popAdvance rb, x, true) ∧
      (popAdvance rb).Valid ∧ (popAdvance rb).window = rest ∧
      (popAdvance rb).lenNat = rb.lenNat - 1 := by
  obtain ⟨hlen, hs, hsM, hmM, hi0, hiM, hr, hw, hfi⟩ := h
  have hh : rb.Valid := ⟨hlen, hs, hsM, hmM, hi0, hiM, hr, hw, hfi⟩
  obtain ⟨x, rest, hwin, hpeek⟩ := Peek_spec rb hh hne
  have hLle := lenNat_le_size rb hh
  have hrlen : rb.r < rb.buf.length := by omega
  have hrotlen : (rb.buf.rotate rb.r).length = rb.size := by
    rw [List.length_rotate, hlen]
  have hr'lt : (if rb.r + 1 = rb.size then 0 else rb.r + 1) < rb.size := by
    split_ifs <;> omega
  have hpop : rb.Pop = some (popAdvance rb, x, true) := by
    by_cases hwrap : rb.r + 1 = rb.size <;>
      rcases hful : rb.full with - | - <;>
      simp [Pop, hpeek, popAdvance, hful, hwrap]
  have hpbuf : (popAdvance rb).buf = rb.buf.set rb.r none := rfl
  have hpr : (popAdvance rb).r = if rb.r + 1 = rb.size then 0 else rb.r + 1 := rfl
  have hpw : (popAdvance rb).w = rb.w := rfl
  have hpsize : (popAdvance rb).size = rb.size := rfl
  have hpfull : (popAdvance rb).full = false := rfl
  have hplen : (popAdvance rb).buf.length = rb.size := by
    rw [hpbuf, List.length_set, hlen]
  have hpvalid : (popAdvance rb).Valid := by
    refine ⟨hplen.trans hpsize.symm, ?_, ?_, ?_, ?_, ?_, ?_, ?_, ?_⟩
    · rw [hpsize]; exact hs
    · rw [hpsize]; exact hsM
    · exact hmM
    · exact hi0
    · exact hiM
    · rw [hpr, hpsize]; exact hr'lt
    · rw [hpw, hpsize]; exact hw
    · rw [hpfull]; intro hx; exact absurd hx (by simp)
  have hLc := lenNat_closed rb hh
  have hlen' : (popAdvance rb).lenNat = rb.lenNat - 1 := by
    have hc2 := lenNat_closed (popAdvance rb) hpvalid
    rw [hpfull] at hc2
    simp only [Bool.false_eq_true, if_false] at hc2
    rw [hc2, hpr, hpw, hpsize]
    rcases hful : rb.full with - | -
    · rw [hful] at hLc
      simp only [Bool.false_eq_true, if_false] at hLc
      have hneq : rb.r ≠ rb.w := by
        intro hcon
        rw [hLc] at hne
        rw [hcon] at hne
        simp at hne
      rcases Nat.decEq (rb.r + 1) rb.size with hwrap | hwrap
      · rw [if_neg hwrap]
        rw [hLc]; split_ifs <;> omega
      · rw [if_pos hwrap]
        rw [hLc]; split_ifs <;> omega
    · have hrw := hfi hful
      rw [hful] at hLc
      simp only [if_true] at hLc
      rcases Nat.decEq (rb.r + 1) rb.size with hwrap | hwrap
      · rw [if_neg hwrap]
        rw [hLc]; split_ifs <;> omega
      · rw [if_pos hwrap]
        rw [hLc]; split_ifs <;> omega
  refine ⟨x, rest, hwin, hpop, hpvalid, ?_, hlen'⟩
  -- window of the popped state
  rcases hrot : rb.buf.rotate rb.r with - | ⟨a, t⟩
  · rw [hrot] at hrotlen
    simp at hrotlen
    omega
  · have hax : a = x := by
      have := hwin
      unfold window at this
      rw [hrot] at this
      obtain ⟨L', hL'⟩ : ∃ L', rb.lenNat = L' + 1 := ⟨rb.lenNat - 1, by omega⟩
      rw [hL', List.take_succ_cons] at this
      exact (List.cons.injEq _ _ _ _).mp this |>.1
    have htlen : t.length = rb.size - 1 := by
      have := hrotlen
      rw [hrot] at this
      simp only [List.length_cons] at this
      omega
    have hrest : rest = t.take (rb.lenNat - 1) := by
      have := hwin
      unfold window at this
      rw [hrot] at this
      obtain ⟨L', hL'⟩ : ∃ L', rb.lenNat = L' + 1 := ⟨rb.lenNat - 1, by omega⟩
      rw [hL', List.take_succ_cons] at this
      have h2 := (List.cons.injEq _ _ _ _).mp this |>.2
      rw [hL']
      simpa using h2.symm
    show ((popAdvance rb).buf.rotate (popAdvance rb).r).take _ = rest
    rw [hlen', hpbuf, hpr, if_wrap_eq_mod hr]
    have hsetlen : (rb.buf.set rb.r none).length = rb.size := by
      rw [List.length_set, hlen]
    rw [show (rb.r + 1) % rb.size = (rb.r + 1) % (rb.buf.set rb.r none).length by
      rw [hsetlen], List.rotate_mod, show rb.r + 1 = rb.r + 1 from rfl]
    have hrr : (rb.buf.set rb.r none).rotate (rb.r + 1)
        = ((rb.buf.set rb.r none).rotate rb.r).rotate 1 := by
      rw [List.rotate_rotate]
    rw [hrr]
    have hset0 : (rb.buf.set rb.r none).rotate rb.r
        = (rb.buf.rotate rb.r).set 0 none := by
      have h2 := rotate_set_mod rb.buf rb.r 0 none (by omega)
      rw [Nat.add_zero, Nat.mod_eq_of_lt hrlen] at h2
      exact h2
    rw [hset0, hrot]
    show ((none :: t).rotate (0 + 1)).take (rb.lenNat - 1) = rest
    rw [List.rotate_cons_succ, List.rotate_zero]
    rw [List.take_append_of_le_length (by omega), hrest]

/-- `Reset` always restores a valid state (cursors zeroed, store reallocated
at `initSize`), and preserves `maxSize`, `initSize` and the full flag. -/
theorem Reset_spec (rb : RingBuffer α) (h : rb.Valid) :
    (rb.Reset).Valid ∧ (rb.Reset).full = rb.full ∧
      (rb.Reset).maxSize = rb.maxSize ∧ (rb.Reset).initSize = rb.initSize ∧
      (rb.full = false → (rb.Reset).lenNat = 0 ∧ (rb.Reset).window = []) := by
  obtain ⟨hlen, hs, hsM, hmM, hi0, hiM, hr, hw, hfi⟩ := h
  refine ⟨⟨?_, hi0, hiM, hmM, hi0, hiM, hi0, hi0, fun _ => rfl⟩, rfl, rfl, rfl, ?_⟩
  · show (List.replicate rb.initSize (none : Option α)).length = rb.initSize
    exact List.length_replicate _ _
  · intro hf
    have hlz : (rb.Reset).lenNat = 0 := by
      unfold lenNat
      rw [show (rb.Reset).full = rb.full from rfl, hf]
      simp only [Bool.false_eq_true, if_false]
      rw [show (rb.Reset).size = rb.initSize from rfl,
        show (rb.Reset).w = 0 from rfl, show (rb.Reset).r = 0 from rfl]
      simp [Nat.mod_self]
    refine ⟨hlz, ?_⟩
    unfold window
    rw [hlz, List.take_zero]

/-- The freshly constructed buffer: valid and empty whenever the requested
`initSize` is a positive Go `int` and `maxSize` is a Go `int`. -/
theorem New_spec (α : Type) (i m : Int) (hi : 1 ≤ i) (hiM : i ≤ maxInt)
    (hmM : m ≤ maxInt) :
    (NewSelfAdptiveRingBuffer α i m).Valid ∧
      (NewSelfAdptiveRingBuffer α i m).window = [] ∧
      (NewSelfAdptiveRingBuffer α i m).lenNat = 0 ∧
      (NewSelfAdptiveRingBuffer α i m).full = false ∧
      (NewSelfAdptiveRingBuffer α i m).size = i.toNat ∧
      (NewSelfAdptiveRingBuffer α i m).initSize = i.toNat ∧
      (NewSelfAdptiveRingBuffer α i m).maxSize = m.toNat := by
  have hMeq : (maxIntNat : Int) = maxInt := by norm_num [maxIntNat, maxInt]
  have hni : ¬ i < 0 := by omega
  have hbuf : (NewSelfAdptiveRingBuffer α i m).buf = List.replicate i.toNat none := by
    simp only [NewSelfAdptiveRingBuffer]
    rw [if_neg hni]
  have hsize : (NewSelfAdptiveRingBuffer α i m).size = i.toNat := by
    simp only [NewSelfAdptiveRingBuffer]
    rw [if_neg hni]
  have hinit : (NewSelfAdptiveRingBuffer α i m).initSize = i.toNat := by
    simp only [NewSelfAdptiveRingBuffer]
    rw [if_neg hni]
  have hmax : (NewSelfAdptiveRingBuffer α i m).maxSize = m.toNat := by
    simp only [NewSelfAdptiveRingBuffer]
    by_cases hm' : m < 0
    · rw [if_pos hm']
      show (0 : Int).toNat = m.toNat
      omega
    · rw [if_neg hm']
  have hr0 : (NewSelfAdptiveRingBuffer α i m).r = 0 := rfl
  have hw0 : (NewSelfAdptiveRingBuffer α i m).w = 0 := rfl
  have hful : (NewSelfAdptiveRingBuffer α i m).full = false := rfl
  have hlz : (NewSelfAdptiveRingBuffer α i m).lenNat = 0 := by
    unfold lenNat
    rw [hful, hsize, hw0, hr0]
    simp [Nat.mod_self]
  refine ⟨⟨by rw [hbuf, hsize]; exact List.length_replicate _ _,
    by rw [hsize]; omega, by rw [hsize]; omega, by rw [hmax]; omega,
    by rw [hinit]; omega, by rw [hinit]; omega,
    by rw [hr0, hsize]; omega, by rw [hw0, hsize]; omega,
    by rw [hful]; intro hx; exact absurd hx (by simp)⟩,
    ?_, hlz, hful, hsize, hinit, hmax⟩
  unfold window
  rw [hlz, List.take_zero]

/-- Inductive step for a batch of `Put`s that stays within capacity: all of
them return `true` and the values are appended in order. -/
theorem runPuts_spec : ∀ (vs : List α) (rb : RingBuffer α), rb.Valid →
    rb.blockedOnlyAtCapacity →
    (0 < rb.maxSize → rb.lenNat + vs.length ≤ rb.maxSize) →
    (rb.maxSize = 0 → rb.lenNat + vs.length ≤ maxIntNat) →
    ∃ rb', rb.runPuts vs = some (rb', List.replicate vs.length true) ∧
      rb'.Valid ∧ rb'.window = rb.window ++ vs.map some ∧
      rb'.maxSize = rb.maxSize ∧ rb'.initSize = rb.initSize ∧
      rb'.lenNat = rb.lenNat + vs.length ∧ rb'.blockedOnlyAtCapacity ∧
      (vs = [] → rb' = rb)
  | [], rb, hval, hblock, _, _ =>
    ⟨rb, rfl, hval, by simp, rfl, rfl, rfl, hblock, fun _ => rfl⟩
  | v :: vs, rb, hval, hblock, hbound1, hbound2 => by
    have hf : rb.full = false := by
      rcases hful : rb.full with - | -
      · rfl
      · rcases hblock hful with ⟨hmp, hle⟩ | ⟨hm0, hle⟩
        · have := hbound1 hmp
          simp only [List.length_cons] at this
          omega
        · have := hbound2 hm0
          simp only [List.length_cons] at this
          omega
    obtain ⟨rb1, hput, hval1, hwin1, hmax1, hinit1, hlen1, hsize1, hfull1⟩ :=
      Put_spec rb v hval hf
    have hblock1 : rb1.blockedOnlyAtCapacity := by
      intro hful1
      obtain ⟨hseq, hcond⟩ := hfull1 hful1
      have hl1 : rb1.lenNat = rb1.size := by
        unfold lenNat
        rw [hful1]
        simp
      rw [hmax1, hl1, hseq]
      exact hcond
    obtain ⟨rb', hrun, hval', hwin', hmax', hinit', hlen', hblock', -⟩ :=
      runPuts_spec vs rb1 hval1 hblock1
        (by rw [hmax1, hlen1]; intro hp; have := hbound1 hp; simp at this ⊢; omega)
        (by rw [hmax1, hlen1]; intro hp; have := hbound2 hp; simp at this ⊢; omega)
    refine ⟨rb', ?_, hval', ?_, hmax'.trans hmax1, hinit'.trans hinit1, ?_, hblock',
      by intro hcon; exact absurd hcon (by simp)⟩
    · show rb.runPuts (v :: vs) = _
      simp only [runPuts, hput, hrun, List.length_cons, List.replicate_succ]
    · rw [hwin', hwin1]
      simp
    · rw [hlen', hlen1]
      simp only [List.length_cons]
      omega

/-- Inductive step for a batch of `n` `Pop`s on a buffer holding at least
`n` values: each returns the next queued value with `ok = true`. -/
theorem runPops_spec : ∀ (n : Nat) (rb : RingBuffer α), rb.Valid →
    n ≤ rb.lenNat →
    ∃ rb', rb.runPops n = some (rb', (rb.window.take n).map (fun x => (x, true))) ∧
      rb'.Valid ∧ rb'.window = rb.window.drop n ∧ rb'.lenNat = rb.lenNat - n ∧
      (0 < n → rb'.full = false) ∧ (n = 0 → rb' = rb)
  | 0, rb, hval, _ =>
    ⟨rb, rfl, hval, by simp, by omega, by omega, fun _ => rfl⟩
  | n + 1, rb, hval, hn => by
    have hne : rb.lenNat ≠ 0 := by omega
    obtain ⟨x, rest, hwin, hpop, hval1, hwin1, hlen1⟩ := Pop_spec rb hval hne
    have hlw := length_window rb hval
    obtain ⟨rb', hrun, hval', hwin', hlen', hfull', -⟩ :=
      runPops_spec n (rb.popAdvance) hval1 (by omega)
    refine ⟨rb', ?_, hval', ?_, by omega, ?_, by intro hcon; exact absurd hcon (by simp)⟩
    · show rb.runPops (n + 1) = _
      simp only [runPops, hpop, hrun, hwin, hwin1, List.take_succ_cons, List.map_cons]
    · rw [hwin', hwin1, hwin, List.drop_succ_cons]
    · intro hpos
      rcases Nat.eq_zero_or_pos n with hn0 | hn0
      · subst hn0
        have h0 : rb.popAdvance.runPops 0
            = some (rb.popAdvance, ([] : List (Option α × Bool))) := rfl
        have heq := congrArg (Option.map Prod.fst) (h0.symm.trans hrun)
        simp only [Option.map_some] at heq
        have heq2 : rb.popAdvance = rb' := by simpa using heq
        rw [← heq2]
        rfl
      · exact hfull' hn0

theorem Len_eq_Cap_of_full (rb : RingBuffer α) (h : rb.Valid) (hf : rb.full = true) :
    rb.Len = rb.Cap := by
  obtain ⟨hlen, hs, -, -, -, -, hr, hw, hfi⟩ := h
  have hrw := hfi hf
  unfold Len Cap IsEmpty
  rw [hf]
  simp only [Bool.not_true, Bool.false_and, Bool.false_eq_true, if_false]
  rw [hrw, if_neg (lt_irrefl rb.w)]
  omega

theorem Peek_of_empty (rb : RingBuffer α) (h : rb.Valid) (hlz : rb.lenNat = 0) :
    rb.Peek = some (none, false) := by
  have hemp : rb.IsEmpty = true := (isEmpty_iff_lenNat rb h).mpr hlz
  simp [Peek, hemp]

theorem Pop_of_empty (rb : RingBuffer α) (h : rb.Valid) (hlz : rb.lenNat = 0) :
    rb.Pop = some (rb, none, false) := by
  simp [Pop, Peek_of_empty rb h hlz]

/-- Every interface mutation preserves validity. -/
theorem RBStep_preserves_Valid (rb rb' : RingBuffer α) (h : rb.Valid)
    (hstep : RBStep rb rb') : rb'.Valid := by
  cases hstep with
  | put v _ _ b hput =>
    rcases hful : rb.full with - | -
    · obtain ⟨rb2, hput2, hval2, -, -, -, -, -, -⟩ := Put_spec rb v h hful
      rw [hput2] at hput
      have h2 := Option.some_inj.mp hput
      have h1 : rb2 = rb' := congrArg Prod.fst h2
      rw [← h1]
      exact hval2
    · rw [Put_of_full rb v hful] at hput
      have h2 := Option.some_inj.mp hput
      have h1 : rb = rb' := congrArg Prod.fst h2
      rw [← h1]
      exact h
  | pop _ _ x ok hpop =>
    rcases Nat.eq_zero_or_pos rb.lenNat with hlz | hpos
    · rw [Pop_of_empty rb h hlz] at hpop
      have h2 := Option.some_inj.mp hpop
      have h1 : rb = rb' := congrArg Prod.fst h2
      rw [← h1]
      exact h
    · obtain ⟨y, rest, -, hpop2, hval1, -, -⟩ := Pop_spec rb h (by omega)
      rw [hpop2] at hpop
      have h2 := Option.some_inj.mp hpop
      have h1 : rb.popAdvance = rb' := congrArg Prod.fst h2
      rw [← h1]
      exact hval1
  | reset => exact (Reset_spec rb h).1

/-- On a buffer whose full flag is set, every `Put` of a batch fails and the
state never changes. -/
theorem runPuts_of_full (rb : RingBuffer α) (hf : rb.full = true) :
    ∀ vs : List α, rb.runPuts vs = some (rb, List.replicate vs.length false)
  | [] => rfl
  | v :: vs => by
    simp only [runPuts, Put_of_full rb v hf, runPuts_of_full rb hf vs,
      List.length_cons, List.replicate_succ]

/-- Counting argument: an all-successful batch of `Put`s forces the final
occupancy `lenNat + |vs|`, which can never exceed `maxInt`. -/
theorem putsAllOk_bound : ∀ (vs : List α) (rb : RingBuffer α), rb.Valid →
    rb.putsAllOk vs = true → rb.lenNat + vs.length ≤ maxIntNat
  | [], rb, hval, _ => by
    have h1 := lenNat_le_size rb hval
    obtain ⟨-, -, hsM, -, -, -, -, -, -⟩ := hval
    simp only [List.length_nil]
    omega
  | v :: vs, rb, hval, hall => by
    rcases hful : rb.full with - | -
    · obtain ⟨rb1, hput, hval1, -, -, -, hlen1, -, -⟩ := Put_spec rb v hval hful
      simp only [putsAllOk, runPuts, hput] at hall
      rcases hrun : rb1.runPuts vs with - | ⟨rb2, bs⟩
      · rw [hrun] at hall
        exact absurd hall (by simp)
      · rw [hrun] at hall
        simp only [List.all_cons, Bool.true_and] at hall
        have hall1 : rb1.putsAllOk vs = true := by
          simp only [putsAllOk, hrun]
          exact hall
        have hrec := putsAllOk_bound vs rb1 hval1 hall1
        rw [hlen1] at hrec
        simp only [List.length_cons]
        omega
    · have hfail := runPuts_of_full rb hful (v :: vs)
      simp only [putsAllOk, hfail] at hall
      simp only [List.length_cons, List.replicate_succ, List.all_cons,
        Bool.false_and] at hall
      exact absurd hall (by simp)

/-! ## Theorems for the ring-buffer claims -/

/-- Claim C4, amended to states with `size ≥ 1` (at `size = 0` the doubled
capacity `0` trips the `doubleCap <= 0` overflow guard and the code returns
`maxInt`, see the counterexample): on any representable state, if
`maxSize > 0` and `size ≥ maxSize` then `growCap()` returns `size`
unchanged; otherwise, below the 1024 growth threshold it returns `2*size`
saturated at the maximum representable signed integer, and at or above the
threshold it returns `size + (size + 3*1024)/4` similarly saturated; the
result is clamped to `maxSize` whenever `maxSize > 0` and the computed
capacity exceeds it. -/
theorem c4_growCap_characterisation (α : Type) (rb : RingBuffer α)
    (h1 : 1 ≤ rb.size) (h2 : rb.size ≤ maxIntNat) (h3 : rb.maxSize ≤ maxIntNat) :
    rb.growCap =
      if 0 < rb.maxSize ∧ rb.maxSize ≤ rb.size then (rb.size : Int)
      else
        let c : Int :=
          if (rb.size : Int) < 1024 then min (2 * (rb.size : Int)) maxInt
          else min ((rb.size : Int) + ((rb.size : Int) + 3 * 1024) / 4) maxInt
        if 0 < rb.maxSize ∧ (rb.maxSize : Int) < c then (rb.maxSize : Int) else c := by
  rw [growCap_eq rb (by omega) h2 h3]
  simp only [maxInt, maxIntNat] at *
  split_ifs <;> omega

/-- Claim C4 witness: a concrete state above the growth threshold
(`size = 2048`, `maxSize = 3000`), where the 1.25x growth computes 3328 and
the clamp takes over. -/
theorem c4_witness :
    (1 ≤ rbC4.size ∧ rbC4.size ≤ maxIntNat ∧ rbC4.maxSize ≤ maxIntNat) ∧
      rbC4.growCap =
        (if 0 < rbC4.maxSize ∧ rbC4.maxSize ≤ rbC4.size then (rbC4.size : Int)
        else
          let c : Int :=
            if (rbC4.size : Int) < 1024 then min (2 * (rbC4.size : Int)) maxInt
            else min ((rbC4.size : Int) + ((rbC4.size : Int) + 3 * 1024) / 4) maxInt
          if 0 < rbC4.maxSize ∧ (rbC4.maxSize : Int) < c then (rbC4.maxSize : Int)
          else c) :=
  ⟨⟨by decide, by decide, by decide⟩,
    c4_growCap_characterisation Nat rbC4 (by decide) (by decide) (by decide)⟩

/-- Claim C4 counterexample: the representable state built by
`NewSelfAdptiveRingBuffer(0, 0)` has `size = 0`; the claim as stated
predicts `growCap() = 2*0 = 0` there, but the code returns `maxInt` because
the doubled capacity `0` satisfies the `doubleCap <= 0` overflow check. -/
theorem c4_counterexample :
    (NewSelfAdptiveRingBuffer Nat 0 0).size = 0 ∧
      (NewSelfAdptiveRingBuffer Nat 0 0).maxSize = 0 ∧
      (NewSelfAdptiveRingBuffer Nat 0 0).growCap = maxInt ∧
      maxInt ≠ 2 * 0 := by
  refine ⟨rfl, rfl, by decide, by decide⟩

/-- Claim C5, amended: on every valid state, `Put(v)` returns `false` iff
the full flag is set, and then it leaves the state unchanged and
`Len() = Cap()` holds; bundled with validity at construction and its
preservation by every `Put`/`Pop`/`Reset`, so this covers every reachable
state. The original `Cap() == maxSize` conjunct is dropped: `Reset()`
preserves a stale full flag, after which `Put` fails with `Cap() < maxSize`
(see the counterexample). -/
theorem c5_put_false_only_full (α : Type) :
    (∀ (rb rb' : RingBuffer α) (v : α), rb.Valid →
      rb.Put v = some (rb', false) →
        rb' = rb ∧ rb.full = true ∧ rb.Len = rb.Cap) ∧
    (∀ rb rb' : RingBuffer α, rb.Valid → RBStep rb rb' → rb'.Valid) ∧
    (∀ i m : Int, 1 ≤ i → i ≤ maxInt → m ≤ maxInt →
      (NewSelfAdptiveRingBuffer α i m).Valid) := by
  refine ⟨?_, fun rb rb' h hs => RBStep_preserves_Valid rb rb' h hs, ?_⟩
  · intro rb rb' v hval hput
    rcases hful : rb.full with - | -
    · obtain ⟨rb2, hput2, -, -, -, -, -, -, -⟩ := Put_spec rb v hval hful
      rw [hput2] at hput
      have h2 := Option.some_inj.mp hput
      have hb : (true : Bool) = false := congrArg Prod.snd h2
      exact absurd hb (by simp)
    · rw [Put_of_full rb v hful] at hput
      have h2 := Option.some_inj.mp hput
      have h1 : rb = rb' := congrArg Prod.fst h2
      exact ⟨h1.symm, rfl, Len_eq_Cap_of_full rb hval hful⟩
  · intro i m hi hiM hmM
    exact (New_spec α i m hi hiM hmM).1

/-- Claim C5 witness: in the reachable state `rbC5`, `Put` fails, leaves the
state unchanged, and `Len() = Cap()`. -/
theorem c5_witness :
    rbC5.Valid ∧ rbC5.Put 9 = some (rbC5, false) ∧
      (rbC5 = rbC5 ∧ rbC5.full = true ∧ rbC5.Len = rbC5.Cap) :=
  ⟨by decide, by decide,
    (c5_put_false_only_full Nat).1 rbC5 rbC5 9 (by decide) (by decide)⟩

/-- Claim C5 counterexample: from `NewSelfAdptiveRingBuffer(1, 2)`, two
`Put`s fill the buffer to `maxSize` and set the full flag; `Reset()` keeps
the stale flag while shrinking back to capacity 1. In the resulting
reachable state `Put` returns `false` although `Cap() = 1 ≠ 2 = maxSize`,
refuting the claim that `Put` fails only when `Cap() == maxSize`. -/
theorem c5_counterexample :
    (NewSelfAdptiveRingBuffer Nat 1 2).runPuts [7, 8]
        = some (rbC5pre, [true, true]) ∧
      rbC5pre.Reset = rbC5 ∧
      rbC5.Put 9 = some (rbC5, false) ∧
      rbC5.Len = rbC5.Cap ∧ rbC5.Cap = 1 ∧ (rbC5.maxSize : Int) = 2 ∧
      rbC5.Cap ≠ (rbC5.maxSize : Int) := by decide

/-- Claim C6: for every valid completely full state (full flag set, cursors
coincident) on which `grow()` succeeds: afterwards the read cursor is 0, the
write cursor equals the old capacity, the new capacity is the value computed
by `growCap()`, the first `oldCapacity` slots of the new backing store are
the old region from the read cursor to the end followed by the region from
index 0 up to the old read cursor (FIFO order preserved), and `Len()` is
unchanged by the growth. -/
theorem c6_grow_mechanics (α : Type) (rb rb' : RingBuffer α) (h : rb.Valid)
    (hfull : rb.full = true) (hgrow : rb.grow = some rb') :
    rb'.r = 0 ∧ rb'.w = rb.size ∧ (rb'.size : Int) = rb.growCap ∧
      rb'.buf.take rb.size = rb.buf.drop rb.r ++ rb.buf.take rb.r ∧
      rb'.Len = rb.Len := by
  obtain ⟨hlen, hs, hsM, hmM, hi0, hiM, hr, hw, hfi⟩ := h
  have hgt : (rb.size : Int) < rb.growCap := by
    by_contra hle
    simp only [grow, if_pos (by omega : rb.growCap ≤ (rb.size : Int)),
      reduceCtorEq] at hgrow
  rw [grow_spec rb hgt] at hgrow
  have hrb' := (Option.some_inj.mp hgrow).symm
  have hrw := hfi hfull
  refine ⟨by rw [hrb'], by rw [hrb'], ?_, ?_, ?_⟩
  · rw [hrb']
    show ((rb.growCap.toNat : Nat) : Int) = rb.growCap
    exact Int.toNat_of_nonneg (by omega)
  · rw [hrb']
    show ((rb.buf.drop rb.r ++ rb.buf.take rb.r) ++
      List.replicate (rb.growCap.toNat - rb.size) none).take rb.size = _
    apply List.take_left'
    rw [List.length_append, List.length_drop, List.length_take]
    omega
  · have hL1 : rb'.Len = (rb.size : Int) := by
      unfold Len IsEmpty
      rw [show rb'.full = rb.full from by rw [hrb'], hfull,
        show rb'.r = 0 from by rw [hrb'], show rb'.w = rb.size from by rw [hrb']]
      simp only [Bool.not_true, Bool.false_and, Bool.false_eq_true, if_false]
      rw [if_pos hs]
      omega
    have hL2 : rb.Len = (rb.size : Int) := by
      unfold Len IsEmpty
      rw [hfull]
      simp only [Bool.not_true, Bool.false_and, Bool.false_eq_true, if_false]
      rw [hrw, if_neg (lt_irrefl rb.w)]
      omega
    rw [hL1, hL2]

/-- Claim C6 witness: growing the concrete full two-slot buffer `rbC6`. -/
theorem c6_witness :
    (rbC6.Valid ∧ rbC6.full = true ∧ rbC6.grow = some rbC6grown) ∧
      (rbC6grown.r = 0 ∧ rbC6grown.w = rbC6.size ∧
        (rbC6grown.size : Int) = rbC6.growCap ∧
        rbC6grown.buf.take rbC6.size
          = rbC6.buf.drop rbC6.r ++ rbC6.buf.take rbC6.r ∧
        rbC6grown.Len = rbC6.Len) :=
  ⟨⟨by decide, rfl, by decide⟩,
    c6_grow_mechanics Nat rbC6 rbC6grown (by decide) rfl (by decide)⟩

/-- Claim C9: `Reset()` reallocates the backing store at `initSize` and
zeroes both cursors but leaves the full flag unchanged; on any state whose
full flag is set, after `Reset()` the buffer still reports `IsFull()`,
`IsEmpty()` is false, `Len()` returns `initSize` although every slot is
`nil` (no values are queued), and every subsequent `Put` returns `false`
without mutating the state. -/
theorem c9_reset_preserves_full (α : Type) (rb : RingBuffer α)
    (hf : rb.full = true) :
    rb.Reset.buf = List.replicate rb.initSize none ∧ rb.Reset.r = 0 ∧
      rb.Reset.w = 0 ∧ rb.Reset.full = rb.full ∧ rb.Reset.IsFull = true ∧
      rb.Reset.IsEmpty = false ∧ rb.Reset.Len = (rb.initSize : Int) ∧
      rb.Reset.window = List.replicate rb.initSize none ∧
      ∀ vs : List α,
        rb.Reset.runPuts vs = some (rb.Reset, List.replicate vs.length false) := by
  have hfr : rb.Reset.full = rb.full := rfl
  refine ⟨rfl, rfl, rfl, rfl, ?_, ?_, ?_, ?_, ?_⟩
  · show rb.Reset.full = true
    rw [hfr, hf]
  · show (!rb.Reset.full && rb.Reset.r == rb.Reset.w) = false
    rw [hfr, hf]
    rfl
  · unfold Len IsEmpty
    rw [hfr, hf]
    simp only [Bool.not_true, Bool.false_and, Bool.false_eq_true, if_false]
    rw [show rb.Reset.r = 0 from rfl, show rb.Reset.w = 0 from rfl,
      if_neg (lt_irrefl 0), show rb.Reset.size = rb.initSize from rfl]
    omega
  · unfold window lenNat
    rw [hfr, hf]
    simp only [if_true]
    rw [show rb.Reset.buf = List.replicate rb.initSize none from rfl,
      show rb.Reset.r = 0 from rfl, show rb.Reset.size = rb.initSize from rfl,
      List.rotate_zero, List.take_replicate]
    rw [Nat.min_self]
  · exact runPuts_of_full rb.Reset (by rw [hfr, hf])

/-- Claim C9 witness: resetting the concrete full one-slot buffer `rbC9` and
then attempting two further `Put`s. -/
theorem c9_witness :
    rbC9.full = true ∧ rbC9.Reset.IsFull = true ∧ rbC9.Reset.IsEmpty = false ∧
      rbC9.Reset.Len = (rbC9.initSize : Int) ∧
      rbC9.Reset.runPuts [5, 6] = some (rbC9.Reset, [false, false]) := by
  obtain ⟨-, -, -, -, h5, h6, h7, -, h9⟩ := c9_reset_preserves_full Nat rbC9 rfl
  exact ⟨rfl, h5, h6, h7, h9 [5, 6]⟩

/-- Claim C10: `NewSelfAdptiveRingBuffer` coerces only strictly negative
`initSize` (to 1), not zero; constructing with `initSize = 0` yields a
zero-length backing store with `size = 0` on which `IsFull()` is false, so
the very first `Put`, for any value, attempts the out-of-range write
`buf[0]` (modelled as `none`, a panic) instead of returning `false`. -/
theorem c10_zero_initSize_put_panics :
    (NewSelfAdptiveRingBuffer Nat (-5) 0).size = 1 ∧
      (NewSelfAdptiveRingBuffer Nat 0 0).size = 0 ∧
      (NewSelfAdptiveRingBuffer Nat 0 0).buf.length = 0 ∧
      (NewSelfAdptiveRingBuffer Nat 0 0).IsFull = false ∧
      ∀ v : Nat, (NewSelfAdptiveRingBuffer Nat 0 0).Put v = none := by
  refine ⟨by decide, by decide, by decide, by decide, fun v => ?_⟩
  simp [Put, IsFull, NewSelfAdptiveRingBuffer]

/-- Claim C7, amended: the unbounded case additionally needs
`N ≤ 2^63 - 1 = maxInt` (with more puts the capacity saturates at `maxInt`
and a put fails, see the counterexample). For every list `vs` of `N` values
and every fresh buffer (`1 ≤ initSize ≤ maxInt`, `maxSize ≤ maxInt`, with
`N ≤ maxSize` when `maxSize > 0` and `N ≤ maxInt` otherwise): all `N` `Put`
calls return `true`, the following `N` `Pop` calls return exactly the `N`
values in insertion order, and after the full drain `IsEmpty()` is true and
`IsFull()` is false. -/
theorem c7_roundtrip (α : Type) (vs : List α) (i m : Int)
    (hi : 1 ≤ i) (hiM : i ≤ maxInt) (hmM : m ≤ maxInt)
    (hbound1 : 0 < m → (vs.length : Int) ≤ m)
    (hbound2 : m ≤ 0 → vs.length ≤ maxIntNat) :
    ∃ rb' rb2, (NewSelfAdptiveRingBuffer α i m).runPuts vs
        = some (rb', List.replicate vs.length true) ∧
      rb'.runPops vs.length = some (rb2, vs.map (fun v => (some v, true))) ∧
      rb2.IsEmpty = true ∧ rb2.IsFull = false := by
  obtain ⟨hval, hwin0, hlz, hful0, hsize0, hinit0, hmax0⟩ :=
    New_spec α i m hi hiM hmM
  obtain ⟨rb', hrun, hval', hwin', hmax', hinit', hlen', -, hnil⟩ :=
    runPuts_spec vs (NewSelfAdptiveRingBuffer α i m) hval
      (by intro hcon; rw [hful0] at hcon; exact absurd hcon (by simp))
      (by
        intro hp
        rw [hmax0] at hp ⊢
        rw [hlz]
        have := hbound1 (by omega)
        omega)
      (by
        intro hp
        rw [hmax0] at hp
        rw [hlz]
        have := hbound2 (by omega)
        omega)
  have hlenvs : rb'.lenNat = vs.length := by rw [hlen', hlz]; omega
  obtain ⟨rb2, hpops, hval'', hwin'', hlen'', hfull'', hid''⟩ :=
    runPops_spec vs.length rb' hval' (by omega)
  have hwmap : rb'.window = vs.map some := by rw [hwin', hwin0]; simp
  have hwlen : rb'.window.length = vs.length := by rw [hwmap, List.length_map]
  refine ⟨rb', rb2, hrun, ?_, ?_, ?_⟩
  · rw [hpops]
    have htake : rb'.window.take vs.length = vs.map some := by
      rw [← hwlen, List.take_length, hwmap]
    rw [htake, List.map_map]
    rfl
  · have hnil'' : rb2.window = [] := by
      rw [hwin'', ← hwlen, List.drop_length]
    rw [isEmpty_iff_lenNat rb2 hval'']
    rw [← window_eq_nil_iff rb2 hval'']
    exact hnil''
  · show rb2.full = false
    rcases vs with - | ⟨v, vs0⟩
    · have h1 : rb' = NewSelfAdptiveRingBuffer α i m := hnil rfl
      have h2 : rb2 = rb' := hid'' rfl
      rw [h2, h1, hful0]
    · exact hfull'' (by simp)

/-- Claim C7 witness: a concrete unbounded round-trip of three values
through a fresh one-slot buffer. -/
theorem c7_witness :
    (0 < (0 : Int) → (([10, 20, 30] : List Nat).length : Int) ≤ 0) ∧
      ((0 : Int) ≤ 0 → ([10, 20, 30] : List Nat).length ≤ maxIntNat) ∧
      ∃ rb' rb2, (NewSelfAdptiveRingBuffer Nat 1 0).runPuts [10, 20, 30]
          = some (rb', List.replicate 3 true) ∧
        rb'.runPops 3
          = some (rb2, [10, 20, 30].map (fun v => (some v, true))) ∧
        rb2.IsEmpty = true ∧ rb2.IsFull = false :=
  ⟨by decide, fun _ => by decide,
    c7_roundtrip Nat [10, 20, 30] 1 0 (by decide) (by decide) (by decide)
      (by decide) (fun _ => by decide)⟩

/-- Claim C7 counterexample: with `maxSize = 0` (unbounded) the claim as
stated allows arbitrary `N`, but a batch of `2^63` puts on a fresh buffer
cannot all succeed: each successful put raises the occupancy by one, the
occupancy never exceeds the capacity, and every reachable capacity is at
most `maxInt = 2^63 - 1`. -/
theorem c7_counterexample :
    (NewSelfAdptiveRingBuffer Nat 1 0).putsAllOk (List.replicate (2 ^ 63) 0)
      = false := by
  rcases hb : (NewSelfAdptiveRingBuffer Nat 1 0).putsAllOk
      (List.replicate (2 ^ 63) 0) with - | -
  · rfl
  · obtain ⟨hval, -, hlz, -, -, -, -⟩ :=
      New_spec Nat 1 0 (by decide) (by decide) (by decide)
    have hbound := putsAllOk_bound (List.replicate (2 ^ 63) 0)
      (NewSelfAdptiveRingBuffer Nat 1 0) hval hb
    rw [hlz, List.length_replicate] at hbound
    simp only [maxIntNat] at hbound
    omega

/-- Eliminating a successful `Put`: the source state cannot have been full,
and the target appends the value to the window. -/
theorem Put_true_elim (rb b' : RingBuffer α) (v : α) (h : rb.Valid)
    (hput : rb.Put v = some (b', true)) :
    b'.Valid ∧ b'.window = rb.window ++ [some v] := by
  rcases hful : rb.full with - | -
  · obtain ⟨rb2, heq, hval2, hwin2, -, -, -, -, -⟩ := Put_spec rb v h hful
    rw [heq] at hput
    have h2 := Option.some_inj.mp hput
    have h1 : rb2 = b' := congrArg Prod.fst h2
    rw [← h1]
    exact ⟨hval2, hwin2⟩
  · rw [Put_of_full rb v hful] at hput
    have h2 := Option.some_inj.mp hput
    have h3 : false = true := congrArg Prod.snd h2
    exact absurd h3 (by simp)

/-- Eliminating a failed `Put` on a valid state: the buffer is returned
unchanged. -/
theorem Put_false_elim (rb b' : RingBuffer α) (v : α) (h : rb.Valid)
    (hput : rb.Put v = some (b', false)) : b' = rb := by
  rcases hful : rb.full with - | -
  · obtain ⟨rb2, heq, -, -, -, -, -, -, -⟩ := Put_spec rb v h hful
    rw [heq] at hput
    have h2 := Option.some_inj.mp hput
    have h3 : true = false := congrArg Prod.snd h2
    exact absurd h3 (by simp)
  · rw [Put_of_full rb v hful] at hput
    have h2 := Option.some_inj.mp hput
    exact (congrArg Prod.fst h2).symm

/-- A `Peek` reporting `ok = true` implies the buffer is non-empty. -/
theorem Peek_true_ne_empty (rb : RingBuffer α) (x : Option α) (h : rb.Valid)
    (hpeek : rb.Peek = some (x, true)) : rb.lenNat ≠ 0 := by
  intro hlz
  rw [Peek_of_empty rb h hlz] at hpeek
  have h2 := Option.some_inj.mp hpeek
  have h3 : false = true := congrArg Prod.snd h2
  exact absurd h3 (by simp)

/-- A successful `Peek` returns the head of the window. -/
theorem Peek_elim (rb : RingBuffer α) (x : Option α) (h : rb.Valid)
    (hpeek : rb.Peek = some (x, true)) :
    ∃ rest, rb.window = x :: rest := by
  have hne := Peek_true_ne_empty rb x h hpeek
  obtain ⟨x', rest, hwin, hpeek2⟩ := Peek_spec rb h hne
  rw [hpeek2] at hpeek
  have h2 := Option.some_inj.mp hpeek
  have hx : x' = x := congrArg Prod.fst h2
  exact ⟨rest, by rw [hwin, hx]⟩

/-- Eliminating a `Pop` on a valid non-empty buffer: the popped value is the
window head, the result is `popAdvance`, and the full flag is cleared. -/
theorem Pop_elim (rb b' : RingBuffer α) (y : Option α) (ok : Bool)
    (h : rb.Valid) (hne : rb.lenNat ≠ 0)
    (hpop : rb.Pop = some (b', y, ok)) :
    b'.Valid ∧ rb.window = y :: b'.window ∧ b'.full = false := by
  obtain ⟨x, rest, hwin, hpop2, hval, hwin', -⟩ := Pop_spec rb h hne
  rw [hpop2] at hpop
  have h2 := Option.some_inj.mp hpop
  have hb : popAdvance rb = b' := congrArg Prod.fst h2
  have hy : x = y := congrArg (fun p => p.2.1) h2
  rw [← hb, ← hy]
  exact ⟨hval, by rw [hwin, hwin'], rfl⟩

/-- `NeedReset` can only report `true` on an empty buffer. -/
theorem isEmpty_of_needReset (rb : RingBuffer α) (h : rb.NeedReset = true) :
    rb.IsEmpty = true := by
  unfold NeedReset at h
  exact ((Bool.and_eq_true _ _).mp h).1

/-- An empty valid buffer has an empty window. -/
theorem window_of_isEmpty (rb : RingBuffer α) (h : rb.Valid)
    (hemp : rb.IsEmpty = true) : rb.window = [] :=
  (window_eq_nil_iff rb h).mpr ((isEmpty_iff_lenNat rb h).mp hemp)

/-- A non-empty report from `IsEmpty` means a non-zero occupancy. -/
theorem ne_empty_of_isEmpty_false (rb : RingBuffer α) (h : rb.Valid)
    (hemp : rb.IsEmpty = false) : rb.lenNat ≠ 0 := by
  intro hlz
  rw [(isEmpty_iff_lenNat rb h).mpr hlz] at hemp
  simp at hemp

/-- `IsEmpty` can only report `true` with the full flag cleared. -/
theorem full_false_of_isEmpty (rb : RingBuffer α) (hemp : rb.IsEmpty = true) :
    rb.full = false := by
  unfold IsEmpty at hemp
  rcases hful : rb.full with - | -
  · rfl
  · rw [hful] at hemp
    simp at hemp

end RingBuffer

/-! ## Theorems for the limiter claims -/

/-- Generic admission count for `k` successive `TryAcquire` calls on any
strategy that behaves like a bounded counter: exactly the first
`max - c` calls succeed. -/
theorem acquireN_counter {σ : Type} (acq : σ → σ × Bool) (st : Nat → σ)
    (max : Nat)
    (hstep : ∀ c, c ≤ max →
      acq (st c) = if c < max then (st (c + 1), true) else (st c, false)) :
    ∀ (k c : Nat), c ≤ max →
      acquireN acq k (st c) =
        (st (min (c + k) max),
          List.replicate (min k (max - c)) true ++
            List.replicate (k - (max - c)) false)
  | 0, c, hc => by
    simp only [acquireN]
    rw [show min (c + 0) max = c by omega, show min 0 (max - c) = 0 by omega,
      show 0 - (max - c) = 0 by omega]
    rfl
  | k + 1, c, hc => by
    by_cases hlt : c < max
    · simp only [acquireN, hstep c hc, if_pos hlt]
      rw [acquireN_counter acq st max hstep k (c + 1) (by omega)]
      rw [show min (c + 1 + k) max = min (c + (k + 1)) max by omega]
      rw [show min (k + 1) (max - c) = min k (max - c - 1) + 1 by omega]
      rw [show (k + 1) - (max - c) = k - (max - c - 1) by omega]
      rw [List.replicate_succ]
      rfl
    · simp only [acquireN, hstep c hc, if_neg hlt]
      rw [acquireN_counter acq st max hstep k c hc]
      rw [show min (c + k) max = min (c + (k + 1)) max by omega]
      rw [show min (k + 1) (max - c) = 0 by omega,
        show min k (max - c) = 0 by omega]
      rw [show (k + 1) - (max - c) = (k - (max - c)) + 1 by omega]
      rw [List.replicate_zero, List.replicate_succ]
      rfl

/-- The atomic bucket with a nonnegative in-range count behaves like the
generic bounded counter. -/
theorem atomic_counter_step (max : Nat) : ∀ c, c ≤ max →
    atomicTryAcquire ((fun (c : Nat) => ({ max := max, count := (c : Int) } :
        AtomicTokenBucket)) c) =
      if c < max then
        ((fun (c : Nat) => ({ max := max, count := (c : Int) } : AtomicTokenBucket))
          (c + 1), true)
      else ((fun (c : Nat) => ({ max := max, count := (c : Int) } : AtomicTokenBucket))
        c, false) := by
  intro c hc
  simp only []
  unfold atomicTryAcquire
  simp only []
  rw [if_neg (by omega : ¬ ((c : Int) < 0))]
  by_cases hlt : c < max
  · rw [if_neg (by omega : ¬ ((c : Int) ≥ ((max : Nat) : Int))),
      if_neg (by omega : ¬ ((c : Int) + 1 > ((max : Nat) : Int))), if_pos hlt]
    have hcast : ((c : Int)) + 1 = (((c + 1 : Nat)) : Int) := by omega
    rw [hcast]
  · rw [if_pos (by omega : (c : Int) ≥ ((max : Nat) : Int)), if_neg hlt]

/-- The channel bucket behaves like the generic bounded counter. -/
theorem channel_counter_step (max : Nat) : ∀ c, c ≤ max →
    channelTryAcquire ((fun (c : Nat) => ({ len := c, cap := max } :
        ChannelTokenBucket)) c) =
      if c < max then
        ((fun (c : Nat) => ({ len := c, cap := max } : ChannelTokenBucket)) (c + 1), true)
      else ((fun (c : Nat) => ({ len := c, cap := max } : ChannelTokenBucket)) c, false) := by
  intro c hc
  simp only []
  unfold channelTryAcquire
  by_cases hlt : c < max
  · rw [if_pos hlt]
  · rw [if_neg hlt]

/-- The mutex bucket behaves like the generic bounded counter. -/
theorem mutex_counter_step (max : Nat) : ∀ c, c ≤ max →
    mutexTryAcquire ((fun (c : Nat) => ({ count := (c : Int), max := max } :
        MutexTokenBucket)) c) =
      if c < max then
        ((fun (c : Nat) => ({ count := (c : Int), max := max } : MutexTokenBucket))
          (c + 1), true)
      else ((fun (c : Nat) => ({ count := (c : Int), max := max } : MutexTokenBucket))
        c, false) := by
  intro c hc
  simp only []
  unfold mutexTryAcquire
  by_cases hlt : c < max
  · rw [if_neg (by omega : ¬ ((c : Int) ≥ ((max : Nat) : Int)))]
    rw [if_neg (by omega : ¬ ((c : Int) ≥ ((max : Nat) : Int))), if_pos hlt]
    have hcast : ({ count := (c : Int), max := max } : MutexTokenBucket).count + 1
        = (((c + 1 : Nat)) : Int) := by
      show (c : Int) + 1 = _
      omega
    rw [hcast]
  · rw [if_pos (by omega : (c : Int) ≥ ((max : Nat) : Int)), if_neg hlt]

/-- The channel bucket never holds more than its fixed capacity,
whatever interface calls are made (`Resize` is a no-op). -/
theorem channelRun_len_le_cap : ∀ (ops : List BucketOp) (l : ChannelTokenBucket),
    l.len ≤ l.cap → (channelRun l ops).len ≤ (channelRun l ops).cap
  | [], _, h => h
  | op :: ops, l, h => by
    cases op with
    | tryAcquire =>
      simp only [channelRun]
      apply channelRun_len_le_cap ops
      unfold channelTryAcquire
      split_ifs <;> (try simp) <;> omega
    | release =>
      simp only [channelRun]
      apply channelRun_len_le_cap ops
      unfold channelRelease
      split_ifs <;> (try simp) <;> omega
    | resize n =>
      simp only [channelRun]
      exact channelRun_len_le_cap ops _ h

/-- The mutex bucket count never becomes negative, whatever interface calls
are made. -/
theorem mutexRun_count_nonneg : ∀ (ops : List BucketOp) (f : MutexTokenBucket),
    0 ≤ f.count → 0 ≤ (mutexRun f ops).count
  | [], _, h => h
  | op :: ops, f, h => by
    cases op with
    | tryAcquire =>
      simp only [mutexRun]
      apply mutexRun_count_nonneg ops
      unfold mutexTryAcquire
      split_ifs <;> (try simp) <;> omega
    | release =>
      simp only [mutexRun]
      apply mutexRun_count_nonneg ops
      unfold mutexRelease
      split_ifs <;> (try simp) <;> omega
    | resize n =>
      simp only [mutexRun]
      apply mutexRun_count_nonneg ops
      unfold mutexResize
      split_ifs <;> (try simp) <;> omega

/-- Claim C3, amended: for the channel-backed strategy, `0 ≤ count ≤ max`
holds in every reachable state (its `Resize` is not implemented); for the
mutex-guarded strategy, `0 ≤ count` holds in every reachable state and
`count ≤ max` is preserved by `TryAcquire` and `Release`, but a `Resize`
below the number of outstanding tokens breaks `count ≤ max` (see the
counterexample). -/
theorem c3_bucket_invariants (max : Nat) (ops : List BucketOp) :
    ((channelRun (newChannel max) ops).len ≤ (channelRun (newChannel max) ops).cap) ∧
    (0 ≤ (mutexRun (newMutex max) ops).count) ∧
    (∀ f : MutexTokenBucket, 0 ≤ f.count → f.count ≤ (f.max : Int) →
      0 ≤ (mutexTryAcquire f).1.count ∧
        (mutexTryAcquire f).1.count ≤ (((mutexTryAcquire f).1.max : Nat) : Int) ∧
        0 ≤ (mutexRelease f).count ∧
        (mutexRelease f).count ≤ (((mutexRelease f).max : Nat) : Int)) := by
  refine ⟨channelRun_len_le_cap ops (newChannel max) (by simp [newChannel]),
    mutexRun_count_nonneg ops (newMutex max) (by simp [newMutex]), ?_⟩
  intro f h0 hmax
  refine ⟨?_, ?_, ?_, ?_⟩
  · unfold mutexTryAcquire
    split_ifs <;> (try simp) <;> omega
  · unfold mutexTryAcquire
    split_ifs <;> (try simp) <;> omega
  · unfold mutexRelease
    split_ifs <;> (try simp) <;> omega
  · unfold mutexRelease
    split_ifs <;> (try simp) <;> omega

/-- Claim C3 witness: a concrete call sequence on each strategy, and the
mutex preservation facts applied at a half-occupied bucket. -/
theorem c3_witness :
    ((channelRun (newChannel 2)
        [BucketOp.tryAcquire, BucketOp.tryAcquire, BucketOp.release]).len
      ≤ (channelRun (newChannel 2)
        [BucketOp.tryAcquire, BucketOp.tryAcquire, BucketOp.release]).cap) ∧
    (0 ≤ (mutexRun (newMutex 2)
        [BucketOp.tryAcquire, BucketOp.tryAcquire, BucketOp.release]).count) ∧
    (0 ≤ ({ count := 1, max := 2 } : MutexTokenBucket).count ∧
      ({ count := 1, max := 2 } : MutexTokenBucket).count
        ≤ ((({ count := 1, max := 2 } : MutexTokenBucket).max : Nat) : Int)) ∧
    (0 ≤ (mutexTryAcquire { count := 1, max := 2 }).1.count ∧
      (mutexTryAcquire { count := 1, max := 2 }).1.count
        ≤ (((mutexTryAcquire { count := 1, max := 2 }).1.max : Nat) : Int) ∧
      0 ≤ (mutexRelease { count := 1, max := 2 }).count ∧
      (mutexRelease { count := 1, max := 2 }).count
        ≤ (((mutexRelease { count := 1, max := 2 }).max : Nat) : Int)) :=
  ⟨(c3_bucket_invariants 2
      [BucketOp.tryAcquire, BucketOp.tryAcquire, BucketOp.release]).1,
    (c3_bucket_invariants 2
      [BucketOp.tryAcquire, BucketOp.tryAcquire, BucketOp.release]).2.1,
    ⟨by decide, by decide⟩,
    (c3_bucket_invariants 2
      [BucketOp.tryAcquire, BucketOp.tryAcquire, BucketOp.release]).2.2
      { count := 1, max := 2 } (by decide) (by decide)⟩

/-- Claim C3 counterexample: on the mutex-guarded strategy with capacity 2,
two `TryAcquire`s followed by `Resize(1)` reach a state with
`count = 2 > 1 = max`, refuting `count ≤ max` as an invariant of every
reachable state. -/
theorem c3_counterexample :
    (mutexRun (newMutex 2)
        [BucketOp.tryAcquire, BucketOp.tryAcquire, BucketOp.resize 1]).count = 2 ∧
      ((mutexRun (newMutex 2)
        [BucketOp.tryAcquire, BucketOp.tryAcquire, BucketOp.resize 1]).max
          : Int) = 1 ∧
      ¬ ((mutexRun (newMutex 2)
        [BucketOp.tryAcquire, BucketOp.tryAcquire, BucketOp.resize 1]).count
          ≤ ((mutexRun (newMutex 2)
        [BucketOp.tryAcquire, BucketOp.tryAcquire, BucketOp.resize 1]).max
          : Int)) := by decide

/-- Exact admission for the atomic strategy: after `k` calls on a fresh
bucket of capacity `max`, the outstanding count is `min k max` and exactly
the first `max` calls succeeded. -/
theorem atomic_acquireN_exact (max k : Nat) :
    acquireN atomicTryAcquire k (newAtomic max)
      = (({ max := max, count := ((min k max : Nat) : Int) } : AtomicTokenBucket),
        List.replicate (min k max) true ++ List.replicate (k - max) false) := by
  have h := acquireN_counter atomicTryAcquire
    (fun (c : Nat) => ({ max := max, count := (c : Int) } : AtomicTokenBucket)) max
    (atomic_counter_step max) k 0 (by omega)
  have h0 : acquireN atomicTryAcquire k (newAtomic max)
      = acquireN atomicTryAcquire k
        ((fun (c : Nat) => ({ max := max, count := (c : Int) } : AtomicTokenBucket)) 0) := rfl
  rw [h0, h]
  simp only []
  rw [show min (0 + k) max = min k max by omega,
    show min k (max - 0) = min k max by omega,
    show k - (max - 0) = k - max by omega]

/-- Exact admission for the channel strategy. -/
theorem channel_acquireN_exact (max k : Nat) :
    acquireN channelTryAcquire k (newChannel max)
      = (({ len := min k max, cap := max } : ChannelTokenBucket),
        List.replicate (min k max) true ++ List.replicate (k - max) false) := by
  have h := acquireN_counter channelTryAcquire
    (fun (c : Nat) => ({ len := c, cap := max } : ChannelTokenBucket)) max
    (channel_counter_step max) k 0 (by omega)
  have h0 : acquireN channelTryAcquire k (newChannel max)
      = acquireN channelTryAcquire k
        ((fun (c : Nat) => ({ len := c, cap := max } : ChannelTokenBucket)) 0) := rfl
  rw [h0, h]
  simp only []
  rw [show min (0 + k) max = min k max by omega,
    show min k (max - 0) = min k max by omega,
    show k - (max - 0) = k - max by omega]

/-- Exact admission for the mutex strategy. -/
theorem mutex_acquireN_exact (max k : Nat) :
    acquireN mutexTryAcquire k (newMutex max)
      = (({ count := ((min k max : Nat) : Int), max := max } : MutexTokenBucket),
        List.replicate (min k max) true ++ List.replicate (k - max) false) := by
  have h := acquireN_counter mutexTryAcquire
    (fun (c : Nat) => ({ count := (c : Int), max := max } : MutexTokenBucket)) max
    (mutex_counter_step max) k 0 (by omega)
  have h0 : acquireN mutexTryAcquire k (newMutex max)
      = acquireN mutexTryAcquire k
        ((fun (c : Nat) => ({ count := (c : Int), max := max } : MutexTokenBucket)) 0) := rfl
  rw [h0, h]
  simp only []
  rw [show min (0 + k) max = min k max by omega,
    show min k (max - 0) = min k max by omega,
    show k - (max - 0) = k - max by omega]

/-- Release one token at capacity, then reacquire: succeeds exactly once
more (atomic strategy, capacity at least 1). -/
theorem atomic_release_reacquire (max : Nat) (h1 : 1 ≤ max) :
    (atomicTryAcquire (atomicRelease
        (acquireN atomicTryAcquire max (newAtomic max)).1)).2 = true ∧
      (atomicTryAcquire (atomicTryAcquire (atomicRelease
        (acquireN atomicTryAcquire max (newAtomic max)).1)).1).2 = false := by
  rw [atomic_acquireN_exact max max]
  simp only [Nat.min_self]
  have hrel : atomicRelease ({ max := max, count := ((max : Nat) : Int) })
      = ({ max := max, count := (((max - 1 : Nat)) : Int) } : AtomicTokenBucket) := by
    unfold atomicRelease
    rw [if_neg (by omega : ¬ ((max : Nat) : Int) ≤ 0)]
    simp only []
    rw [if_neg (by omega : ¬ ((max : Nat) : Int) - 1 < 0)]
    have hc : ((max : Nat) : Int) - 1 = (((max - 1 : Nat)) : Int) := by omega
    rw [hc]
  rw [hrel]
  have hstep1 := atomic_counter_step max (max - 1) (by omega)
  rw [if_pos (by omega : max - 1 < max), show max - 1 + 1 = max by omega] at hstep1
  simp only [] at hstep1
  have hstep2 := atomic_counter_step max max (le_refl max)
  rw [if_neg (by omega : ¬ max < max)] at hstep2
  simp only [] at hstep2
  rw [hstep1]
  exact ⟨rfl, by rw [hstep2]⟩

/-- Release one token at capacity, then reacquire (channel strategy). -/
theorem channel_release_reacquire (max : Nat) (h1 : 1 ≤ max) :
    (channelTryAcquire (channelRelease
        (acquireN channelTryAcquire max (newChannel max)).1)).2 = true ∧
      (channelTryAcquire (channelTryAcquire (channelRelease
        (acquireN channelTryAcquire max (newChannel max)).1)).1).2 = false := by
  rw [channel_acquireN_exact max max]
  simp only [Nat.min_self]
  have hrel : channelRelease ({ len := max, cap := max })
      = ({ len := max - 1, cap := max } : ChannelTokenBucket) := by
    unfold channelRelease
    rw [if_pos (by omega : 0 < max)]
  rw [hrel]
  have hstep1 := channel_counter_step max (max - 1) (by omega)
  rw [if_pos (by omega : max - 1 < max), show max - 1 + 1 = max by omega] at hstep1
  simp only [] at hstep1
  have hstep2 := channel_counter_step max max (le_refl max)
  rw [if_neg (by omega : ¬ max < max)] at hstep2
  simp only [] at hstep2
  rw [hstep1]
  exact ⟨rfl, by rw [hstep2]⟩

/-- Release one token at capacity, then reacquire (mutex strategy). -/
theorem mutex_release_reacquire (max : Nat) (h1 : 1 ≤ max) :
    (mutexTryAcquire (mutexRelease
        (acquireN mutexTryAcquire max (newMutex max)).1)).2 = true ∧
      (mutexTryAcquire (mutexTryAcquire (mutexRelease
        (acquireN mutexTryAcquire max (newMutex max)).1)).1).2 = false := by
  rw [mutex_acquireN_exact max max]
  simp only [Nat.min_self]
  have hrel : mutexRelease ({ count := ((max : Nat) : Int), max := max })
      = ({ count := (((max - 1 : Nat)) : Int), max := max } : MutexTokenBucket) := by
    unfold mutexRelease
    rw [if_neg (by omega : ¬ ((max : Nat) : Int) = 0)]
    rw [if_neg (by omega : ¬ ((max : Nat) : Int) = 0)]
    have hc : ((max : Nat) : Int) - 1 = (((max - 1 : Nat)) : Int) := by omega
    rw [hc]
  rw [hrel]
  have hstep1 := mutex_counter_step max (max - 1) (by omega)
  rw [if_pos (by omega : max - 1 < max), show max - 1 + 1 = max by omega] at hstep1
  simp only [] at hstep1
  have hstep2 := mutex_counter_step max max (le_refl max)
  rw [if_neg (by omega : ¬ max < max)] at hstep2
  simp only [] at hstep2
  rw [hstep1]
  exact ⟨rfl, by rw [hstep2]⟩

/-- Claim C8, amended (the release/reacquire clause additionally needs
`max ≥ 1`; at `max = 0` there is nothing to release and the extra
`TryAcquire` still fails, see the counterexample): for each strategy
(atomic, channel-backed, mutex) constructed with capacity `max`, in any
sequence of `k` `TryAcquire` calls with no intervening `Release`, exactly
the first `max` calls return `true` and every later call returns `false`
(so the successes never exceed `max`); moreover, for `max ≥ 1`, after
acquiring to capacity one `Release` followed by `TryAcquire` succeeds
exactly once more, and a further `TryAcquire` returns `false`. -/
theorem c8_exact_admission (max k : Nat) :
    ((acquireN atomicTryAcquire k (newAtomic max)).2
        = List.replicate (min k max) true ++ List.replicate (k - max) false) ∧
    ((acquireN channelTryAcquire k (newChannel max)).2
        = List.replicate (min k max) true ++ List.replicate (k - max) false) ∧
    ((acquireN mutexTryAcquire k (newMutex max)).2
        = List.replicate (min k max) true ++ List.replicate (k - max) false) ∧
    (1 ≤ max →
      ((atomicTryAcquire (atomicRelease
          (acquireN atomicTryAcquire max (newAtomic max)).1)).2 = true ∧
        (atomicTryAcquire (atomicTryAcquire (atomicRelease
          (acquireN atomicTryAcquire max (newAtomic max)).1)).1).2 = false) ∧
      ((channelTryAcquire (channelRelease
          (acquireN channelTryAcquire max (newChannel max)).1)).2 = true ∧
        (channelTryAcquire (channelTryAcquire (channelRelease
          (acquireN channelTryAcquire max (newChannel max)).1)).1).2 = false) ∧
      ((mutexTryAcquire (mutexRelease
          (acquireN mutexTryAcquire max (newMutex max)).1)).2 = true ∧
        (mutexTryAcquire (mutexTryAcquire (mutexRelease
          (acquireN mutexTryAcquire max (newMutex max)).1)).1).2 = false)) := by
  refine ⟨by rw [atomic_acquireN_exact], by rw [channel_acquireN_exact],
    by rw [mutex_acquireN_exact], fun h1 => ⟨atomic_release_reacquire max h1,
      channel_release_reacquire max h1, mutex_release_reacquire max h1⟩⟩

/-- Claim C8 witness: capacity 2, five straight acquires (two succeed,
three fail), then the release/reacquire round. -/
theorem c8_witness :
    ((acquireN atomicTryAcquire 5 (newAtomic 2)).2
        = [true, true, false, false, false]) ∧
      ((acquireN channelTryAcquire 5 (newChannel 2)).2
        = [true, true, false, false, false]) ∧
      ((acquireN mutexTryAcquire 5 (newMutex 2)).2
        = [true, true, false, false, false]) ∧
      (1 ≤ 2) ∧
      (atomicTryAcquire (atomicRelease
        (acquireN atomicTryAcquire 2 (newAtomic 2)).1)).2 = true := by
  have h := c8_exact_admission 2 5
  refine ⟨?_, ?_, ?_, by decide, ((c8_exact_admission 2 5).2.2.2 (by decide)).1.1⟩
  · rw [h.1]; rfl
  · rw [h.2.1]; rfl
  · rw [h.2.2.1]; rfl

/-- Claim C8 counterexample: with capacity `max = 0` the claim as stated
still demands that `Release` followed by `TryAcquire` "succeeds exactly
once more", but for every strategy the code returns `false` (the release is
a no-op on an empty bucket and the bound is still 0). -/
theorem c8_counterexample :
    (atomicTryAcquire (atomicRelease (newAtomic 0))).2 = false ∧
      (channelTryAcquire (channelRelease (newChannel 0))).2 = false ∧
      (mutexTryAcquire (mutexRelease (newMutex 0))).2 = false := by decide

/-! ## Theorems about the adaptive channel -/

/-- Neither selection location holds a value. -/
theorem heldAt_sel (c : Prop) [inst : Decidable c] :
    heldAt (if c then (DispatchPC.outerSelect : DispatchPC α)
      else DispatchPC.innerSelect) = [] := by
  split <;> rfl

/-- Neither selection location is a termination location. -/
theorem isTermPC_sel (c : Prop) [inst : Decidable c] :
    isTermPC (if c then (DispatchPC.outerSelect : DispatchPC α)
      else DispatchPC.innerSelect) = false := by
  split <;> rfl

/-- Outside the termination locations the location facts are trivial. -/
theorem pcFacts_of_not_term (pc : DispatchPC α) (win : List (Option α))
    (inq pend : List α) (outc creq : Bool) (h : isTermPC pc = false) :
    pcFacts pc win inq pend outc creq := by
  cases pc <;> simp [isTermPC, pcFacts] at h ⊢

/-- The invariant holds in the initial state of any well-formed
configuration. -/
theorem chanInv_init (α : Type) (cfg : ChanConfig) (vs : List α)
    (hwf : WFConfig cfg) : ChanInv vs (initChanState cfg vs) := by
  obtain ⟨h1, h2, h3⟩ := hwf
  obtain ⟨hval, hwin, -, -, -, -, -⟩ :=
    RingBuffer.New_spec α cfg.initBufferSize cfg.maxBufferSize
      (by exact_mod_cast h1)
      (by simp only [maxIntNat] at h2; simp only [maxInt]; omega) h3
  refine ⟨hval, ?_, ?_, rfl, trivial, ?_⟩
  · exact fun hc => absurd hc Bool.false_ne_true
  · exact fun hc => absurd hc Bool.false_ne_true
  · show [] ++ [] ++ (initChanState cfg vs).buffer.window ++
      heldAt (DispatchPC.outerSelect : DispatchPC α) ++
      List.map some [] ++ vs.map some = vs.map some
    have hb : (initChanState cfg vs).buffer =
        RingBuffer.NewSelfAdptiveRingBuffer α cfg.initBufferSize
          cfg.maxBufferSize := rfl
    rw [hb, hwin]
    simp [heldAt]

/-- One step of the system preserves the invariant (non-drop policy). -/
theorem chanInv_step (α : Type) (cfg : ChanConfig) (vs : List α)
    (s s' : ChanState α) (hdrop : cfg.dropClosedBufferData = false)
    (hinv : ChanInv vs s) (hstep : ChanStep cfg s s') : ChanInv vs s' := by
  obtain ⟨pend, inq, inc, creq, buf, outq, outc, deliv, dpc⟩ := s
  obtain ⟨hval, hcr, hoc, hinc, hpci, hseq⟩ := hinv
  have hv : buf.Valid := hval
  have hc1 : creq = true → pend = [] := hcr
  have hc2 : outc = true → dpc = DispatchPC.done := hoc
  have hc3 : inc = isTermPC dpc := hinc
  have hc4 : pcFacts dpc buf.window inq pend outc creq := hpci
  have hc5 : deliv ++ outq ++ buf.window ++ heldAt dpc ++ inq.map some ++
      pend.map some = vs.map some := hseq
  cases hstep with
  | send v rest hpend hincl hroom =>
    have hp : pend = v :: rest := hpend
    have hi : inc = false := hincl
    refine ⟨hv, ?_, hc2, hc3, ?_, ?_⟩
    · intro h
      have h2 := hc1 h
      rw [hp] at h2
      exact absurd h2 (List.cons_ne_nil v rest)
    · apply pcFacts_of_not_term
      rw [← hc3]
      exact hi
    · show deliv ++ outq ++ buf.window ++ heldAt dpc ++
        (inq ++ [v]).map some ++ rest.map some = vs.map some
      rw [← hc5, hp]
      simp [List.map_append, List.append_assoc]
  | closeSignal hpend =>
    have hp : pend = [] := hpend
    refine ⟨hv, fun _ => hp, hc2, hc3, ?_, hc5⟩
    show pcFacts dpc buf.window inq pend outc true
    cases dpc
    all_goals first
      | trivial
      | (obtain ⟨hw2, -⟩ := hc4; exact ⟨hw2, rfl⟩)
      | exact hc4
  | recvDirect v rest hpc hinq hemp hroom =>
    have hp2 : dpc = DispatchPC.outerSelect ∨ dpc = DispatchPC.innerSelect :=
      hpc
    have hq : inq = v :: rest := hinq
    have he : buf.IsEmpty = true := hemp
    have hwinnil : buf.window = [] := RingBuffer.window_of_isEmpty buf hv he
    have hH : heldAt dpc = [] := by
      rcases hp2 with h2 | h2 <;> rw [h2] <;> rfl
    refine ⟨hv, hc1, ?_, ?_, trivial, ?_⟩
    · intro h
      have h3 := hc2 h
      rcases hp2 with h2 | h2 <;> rw [h2] at h3 <;> simp at h3
    · show inc = false
      rw [hc3]
      rcases hp2 with h2 | h2 <;> rw [h2] <;> rfl
    · show deliv ++ (outq ++ [some v]) ++ buf.window ++
        heldAt (DispatchPC.outerSelect : DispatchPC α) ++
        rest.map some ++ pend.map some = vs.map some
      rw [← hc5, hq, hwinnil, hH]
      simp [heldAt, List.map_append, List.append_assoc]
  | recvPut v rest b' hpc hinq hput =>
    have hp2 : dpc = DispatchPC.outerSelect ∨ dpc = DispatchPC.innerSelect :=
      hpc
    have hq : inq = v :: rest := hinq
    have hp3 : buf.Put v = some (b', true) := hput
    obtain ⟨hbval, hbwin⟩ := RingBuffer.Put_true_elim buf b' v hv hp3
    have hH : heldAt dpc = [] := by
      rcases hp2 with h2 | h2 <;> rw [h2] <;> rfl
    refine ⟨hbval, hc1, ?_, ?_, ?_, ?_⟩
    · intro h
      have h3 := hc2 h
      rcases hp2 with h2 | h2 <;> rw [h2] at h3 <;> simp at h3
    · show inc = isTermPC (if b'.IsEmpty then
        (DispatchPC.outerSelect : DispatchPC α) else DispatchPC.innerSelect)
      rw [isTermPC_sel, hc3]
      rcases hp2 with h2 | h2 <;> rw [h2] <;> rfl
    · exact pcFacts_of_not_term _ _ _ _ _ _ (isTermPC_sel _)
    · show deliv ++ outq ++ b'.window ++ heldAt (if b'.IsEmpty then
        (DispatchPC.outerSelect : DispatchPC α) else DispatchPC.innerSelect) ++
        rest.map some ++ pend.map some = vs.map some
      rw [heldAt_sel, hbwin, ← hc5, hq, hH]
      simp [List.map_append, List.append_assoc]
  | recvPutFull v rest b' hpc hinq hput =>
    have hp2 : dpc = DispatchPC.outerSelect ∨ dpc = DispatchPC.innerSelect :=
      hpc
    have hq : inq = v :: rest := hinq
    have hp3 : buf.Put v = some (b', false) := hput
    have hb : b' = buf := RingBuffer.Put_false_elim buf b' v hv hp3
    subst hb
    have hH : heldAt dpc = [] := by
      rcases hp2 with h2 | h2 <;> rw [h2] <;> rfl
    refine ⟨hv, hc1, ?_, ?_, trivial, ?_⟩
    · intro h
      have h3 := hc2 h
      rcases hp2 with h2 | h2 <;> rw [h2] at h3 <;> simp at h3
    · show inc = false
      rw [hc3]
      rcases hp2 with h2 | h2 <;> rw [h2] <;> rfl
    · show deliv ++ outq ++ b'.window ++ heldAt (DispatchPC.awaitOut v) ++
        rest.map some ++ pend.map some = vs.map some
      rw [← hc5, hq, hH]
      simp [heldAt, List.map_append, List.append_assoc]
  | closeSelect hpc hcreq =>
    have hp2 : dpc = DispatchPC.outerSelect ∨ dpc = DispatchPC.innerSelect :=
      hpc
    have hcq : creq = true := hcreq
    have hH : heldAt dpc = [] := by
      rcases hp2 with h2 | h2 <;> rw [h2] <;> rfl
    have hE : enterTermination cfg
        (⟨pend, inq, inc, creq, buf, outq, outc, deliv, dpc⟩ : ChanState α)
        none =
        ⟨pend, inq, true, creq, buf, outq, outc, deliv,
          DispatchPC.termBuf none⟩ := by
      simp [enterTermination, hdrop]
    rw [hE]
    refine ⟨hv, hc1, ?_, rfl, hcq, ?_⟩
    · intro h
      have h3 := hc2 h
      rcases hp2 with h2 | h2 <;> rw [h2] at h3 <;> simp at h3
    · show deliv ++ outq ++ buf.window ++
        heldAt (DispatchPC.termBuf (none : Option α)) ++
        inq.map some ++ pend.map some = vs.map some
      rw [← hc5, hH]
      simp [heldAt]
  | awaitClose v hpc hcreq =>
    have hp2 : dpc = DispatchPC.awaitOut v := hpc
    have hcq : creq = true := hcreq
    have hE : enterTermination cfg
        (⟨pend, inq, inc, creq, buf, outq, outc, deliv, dpc⟩ : ChanState α)
        (some v) =
        ⟨pend, inq, true, creq, buf, outq, outc, deliv,
          DispatchPC.termBuf (some v)⟩ := by
      simp [enterTermination, hdrop]
    rw [hE]
    refine ⟨hv, hc1, ?_, rfl, hcq, ?_⟩
    · intro h
      have h3 := hc2 h
      rw [hp2] at h3
      simp at h3
    · show deliv ++ outq ++ buf.window ++
        heldAt (DispatchPC.termBuf (some v)) ++
        inq.map some ++ pend.map some = vs.map some
      rw [← hc5, hp2]
      simp [heldAt]
  | sendHead x b' y ok hpc hpeek hroom hpop =>
    have hp2 : dpc = DispatchPC.innerSelect := hpc
    have hpk : buf.Peek = some (x, true) := hpeek
    have hpp : buf.Pop = some (b', y, ok) := hpop
    have hne := RingBuffer.Peek_true_ne_empty buf x hv hpk
    obtain ⟨restw, hwin⟩ := RingBuffer.Peek_elim buf x hv hpk
    obtain ⟨hbval, hwin2, hbfull⟩ := RingBuffer.Pop_elim buf b' y ok hv hne hpp
    rw [hwin] at hwin2
    injection hwin2 with hxy hrw
    subst hxy
    have hB : (if b'.NeedReset then b'.Reset else b').Valid ∧
        (if b'.NeedReset then b'.Reset else b').window = b'.window := by
      by_cases hnr : b'.NeedReset = true
      · rw [if_pos hnr]
        obtain ⟨hrv, -, -, -, hre⟩ := RingBuffer.Reset_spec b' hbval
        refine ⟨hrv, ?_⟩
        rw [(hre hbfull).2, RingBuffer.window_of_isEmpty b' hbval
          (RingBuffer.isEmpty_of_needReset b' hnr)]
      · rw [if_neg hnr]
        exact ⟨hbval, rfl⟩
    have hH : heldAt dpc = [] := by rw [hp2]; rfl
    refine ⟨hB.1, hc1, ?_, ?_, ?_, ?_⟩
    · intro h
      have h3 := hc2 h
      rw [hp2] at h3
      simp at h3
    · show inc = isTermPC (if (if b'.NeedReset then b'.Reset
        else b').IsEmpty then (DispatchPC.outerSelect : DispatchPC α)
        else DispatchPC.innerSelect)
      rw [isTermPC_sel, hc3, hp2]
      rfl
    · exact pcFacts_of_not_term _ _ _ _ _ _ (isTermPC_sel _)
    · show deliv ++ (outq ++ [x]) ++
        (if b'.NeedReset then b'.Reset else b').window ++
        heldAt (if (if b'.NeedReset then b'.Reset else b').IsEmpty then
          (DispatchPC.outerSelect : DispatchPC α)
          else DispatchPC.innerSelect) ++
        inq.map some ++ pend.map some = vs.map some
      rw [heldAt_sel, hB.2, ← hc5, hwin, ← hrw, hH]
      simp [List.append_assoc]
  | awaitSend v x b' b2 y ok ok2 hpc hpeek hroom hpop hput =>
    have hp2 : dpc = DispatchPC.awaitOut v := hpc
    have hpk : buf.Peek = some (x, true) := hpeek
    have hpp : buf.Pop = some (b', y, ok) := hpop
    have hpt : b'.Put v = some (b2, ok2) := hput
    have hne := RingBuffer.Peek_true_ne_empty buf x hv hpk
    obtain ⟨restw, hwin⟩ := RingBuffer.Peek_elim buf x hv hpk
    obtain ⟨hbval, hwin2, hbfull⟩ := RingBuffer.Pop_elim buf b' y ok hv hne hpp
    rw [hwin] at hwin2
    injection hwin2 with hxy hrw
    subst hxy
    obtain ⟨rb2, heq, hrb2val, hrb2win, -, -, -, -, -⟩ :=
      RingBuffer.Put_spec b' v hbval hbfull
    rw [heq] at hpt
    have h2 := Option.some_inj.mp hpt
    have hbb : rb2 = b2 := congrArg Prod.fst h2
    subst hbb
    have hH : heldAt dpc = [some v] := by rw [hp2]; rfl
    refine ⟨hrb2val, hc1, ?_, ?_, ?_, ?_⟩
    · intro h
      have h3 := hc2 h
      rw [hp2] at h3
      simp at h3
    · show inc = isTermPC (if rb2.IsEmpty then
        (DispatchPC.outerSelect : DispatchPC α) else DispatchPC.innerSelect)
      rw [isTermPC_sel, hc3, hp2]
      rfl
    · exact pcFacts_of_not_term _ _ _ _ _ _ (isTermPC_sel _)
    · show deliv ++ (outq ++ [x]) ++ rb2.window ++
        heldAt (if rb2.IsEmpty then (DispatchPC.outerSelect : DispatchPC α)
          else DispatchPC.innerSelect) ++
        inq.map some ++ pend.map some = vs.map some
      rw [heldAt_sel, hrb2win, ← hc5, hwin, ← hrw, hH]
      simp [List.append_assoc]
  | termBufSend p b' y ok hpc hemp hpop hroom =>
    have hp2 : dpc = DispatchPC.termBuf p := hpc
    have hem : buf.IsEmpty = false := hemp
    have hpp : buf.Pop = some (b', y, ok) := hpop
    have hne := RingBuffer.ne_empty_of_isEmpty_false buf hv hem
    obtain ⟨hbval, hwin2, -⟩ := RingBuffer.Pop_elim buf b' y ok hv hne hpp
    have hcq : creq = true := by
      rw [hp2] at hc4
      exact hc4
    refine ⟨hbval, hc1, ?_, hc3, ?_, ?_⟩
    · intro h
      have h3 := hc2 h
      rw [hp2] at h3
      simp at h3
    · show pcFacts dpc b'.window inq pend outc creq
      rw [hp2]
      exact hcq
    · show deliv ++ (outq ++ [y]) ++ b'.window ++ heldAt dpc ++
        inq.map some ++ pend.map some = vs.map some
      rw [← hc5, hwin2]
      simp [List.append_assoc]
  | termBufDone p hpc hemp =>
    have hp2 : dpc = DispatchPC.termBuf p := hpc
    have hem : buf.IsEmpty = true := hemp
    have hwinnil : buf.window = [] := RingBuffer.window_of_isEmpty buf hv hem
    have hfull : buf.full = false := RingBuffer.full_false_of_isEmpty buf hem
    obtain ⟨hrv, -, -, -, hre⟩ := RingBuffer.Reset_spec buf hv
    have hcq : creq = true := by
      rw [hp2] at hc4
      exact hc4
    have hHH : heldAt (DispatchPC.termPoped p) =
        heldAt (DispatchPC.termBuf p) := by
      cases p <;> rfl
    refine ⟨hrv, hc1, ?_, ?_, ?_, ?_⟩
    · intro h
      have h3 := hc2 h
      rw [hp2] at h3
      simp at h3
    · show inc = isTermPC (DispatchPC.termPoped p)
      rw [hc3, hp2]
      cases p <;> rfl
    · show pcFacts (DispatchPC.termPoped p) buf.Reset.window inq pend outc
        creq
      exact ⟨(hre hfull).2, hcq⟩
    · show deliv ++ outq ++ buf.Reset.window ++
        heldAt (DispatchPC.termPoped p) ++
        inq.map some ++ pend.map some = vs.map some
      rw [(hre hfull).2, hHH, ← hc5, hwinnil, hp2]
  | termPopedSend v hpc hroom =>
    have hp2 : dpc = DispatchPC.termPoped (some v) := hpc
    rw [hp2] at hc4
    obtain ⟨hwn, hcq⟩ := hc4
    have hH : heldAt dpc = [some v] := by rw [hp2]; rfl
    refine ⟨hv, hc1, ?_, ?_, ⟨hwn, hcq⟩, ?_⟩
    · intro h
      have h3 := hc2 h
      rw [hp2] at h3
      simp at h3
    · show inc = isTermPC (DispatchPC.termIn : DispatchPC α)
      rw [hc3, hp2]
      rfl
    · show deliv ++ (outq ++ [some v]) ++ buf.window ++
        heldAt (DispatchPC.termIn : DispatchPC α) ++
        inq.map some ++ pend.map some = vs.map some
      rw [← hc5, hwn, hH]
      simp [heldAt, List.append_assoc]
  | termPopedNone hpc =>
    have hp2 : dpc = DispatchPC.termPoped none := hpc
    rw [hp2] at hc4
    obtain ⟨hwn, hcq⟩ := hc4
    have hH : heldAt dpc = [] := by rw [hp2]; rfl
    refine ⟨hv, hc1, ?_, ?_, ⟨hwn, hcq⟩, ?_⟩
    · intro h
      have h3 := hc2 h
      rw [hp2] at h3
      simp at h3
    · show inc = isTermPC (DispatchPC.termIn : DispatchPC α)
      rw [hc3, hp2]
      rfl
    · show deliv ++ outq ++ buf.window ++
        heldAt (DispatchPC.termIn : DispatchPC α) ++
        inq.map some ++ pend.map some = vs.map some
      rw [← hc5, hH]
      simp [heldAt]
  | termInSend v rest hpc hinq hroom =>
    have hp2 : dpc = DispatchPC.termIn := hpc
    have hq : inq = v :: rest := hinq
    rw [hp2] at hc4
    obtain ⟨hwn, hcq⟩ := hc4
    have hH : heldAt dpc = [] := by rw [hp2]; rfl
    refine ⟨hv, hc1, ?_, hc3, ?_, ?_⟩
    · intro h
      have h3 := hc2 h
      rw [hp2] at h3
      simp at h3
    · show pcFacts dpc buf.window rest pend outc creq
      rw [hp2]
      exact ⟨hwn, hcq⟩
    · show deliv ++ (outq ++ [some v]) ++ buf.window ++ heldAt dpc ++
        rest.map some ++ pend.map some = vs.map some
      rw [← hc5, hq, hwn, hH]
      simp [List.map_append, List.append_assoc]
  | termInDone hpc hinq =>
    have hp2 : dpc = DispatchPC.termIn := hpc
    have hq : inq = [] := hinq
    rw [hp2] at hc4
    obtain ⟨hwn, hcq⟩ := hc4
    have hH : heldAt dpc = [] := by rw [hp2]; rfl
    refine ⟨hv, hc1, fun _ => rfl, ?_, ⟨hwn, hq, hc1 hcq, rfl⟩, ?_⟩
    · show inc = isTermPC (DispatchPC.done : DispatchPC α)
      rw [hc3, hp2]
      rfl
    · show deliv ++ outq ++ buf.window ++
        heldAt (DispatchPC.done : DispatchPC α) ++
        inq.map some ++ pend.map some = vs.map some
      rw [← hc5, hH]
      simp [heldAt]
  | consume x rest houtq =>
    have ho : outq = x :: rest := houtq
    refine ⟨hv, hc1, hc2, hc3, hc4, ?_⟩
    show (deliv ++ [x]) ++ rest ++ buf.window ++ heldAt dpc ++
      inq.map some ++ pend.map some = vs.map some
    rw [← hc5, ho]
    simp [List.append_assoc]

/-- Every reachable state of a well-formed non-drop configuration satisfies
the invariant. -/
theorem chanReach_inv (α : Type) (cfg : ChanConfig) (vs : List α)
    (s : ChanState α) (hdrop : cfg.dropClosedBufferData = false)
    (hwf : WFConfig cfg) (hreach : ChanReach cfg vs s) : ChanInv vs s := by
  induction hreach with
  | init => exact chanInv_init α cfg vs hwf
  | step s1 s2 hr hst ih => exact chanInv_step α cfg vs s1 s2 hdrop ih hst

/-- Claim C1: for every sequence of values committed to `In()` before
`Close()`, under the non-drop policy and any well-formed configuration of
channel and buffer sizes, every reachable state has delivered a prefix of
the sent sequence, and once `Out()` has closed and been drained the
delivered sequence is exactly the sent one — no loss, no reordering, no
duplication. -/
theorem c1_channx_fifo (α : Type) (cfg : ChanConfig) (vs : List α)
    (s : ChanState α) (hdrop : cfg.dropClosedBufferData = false)
    (hwf : WFConfig cfg) (hreach : ChanReach cfg vs s) :
    (∃ rest, s.delivered ++ rest = vs.map some) ∧
      (s.outClosed = true → s.outq = [] → s.delivered = vs.map some) := by
  obtain ⟨hval, hcr, hoc, hinc, hpci, hseq⟩ :=
    chanReach_inv α cfg vs s hdrop hwf hreach
  constructor
  · refine ⟨s.outq ++ s.buffer.window ++ heldAt s.pc ++ s.inq.map some ++
      s.pending.map some, ?_⟩
    rw [← hseq]
    simp [chanSeq, List.append_assoc]
  · intro hcl hout
    have hpc := hoc hcl
    have hc4 : pcFacts s.pc s.buffer.window s.inq s.pending s.outClosed
        s.closeReq := hpci
    rw [hpc] at hc4
    obtain ⟨hwn, hiq, hpd, -⟩ := hc4
    rw [← hseq]
    unfold chanSeq
    rw [hout, hwn, hiq, hpd, hpc]
    simp [heldAt]

/-- The complete run of `[42]` through the default configuration, ending in
`c1sFinal`. -/
theorem c1_run : ChanReach newDefuerConfig [42] c1sFinal := by
  have h0 : ChanReach newDefuerConfig [42] c1s0 := ChanReach.init
  have h1 : ChanReach newDefuerConfig [42] c1s1 :=
    ChanReach.step _ _ h0 (ChanStep.send _ 42 [] rfl rfl (by decide))
  have h2 : ChanReach newDefuerConfig [42] c1s2 :=
    ChanReach.step _ _ h1 (ChanStep.closeSignal _ rfl)
  have h3 : ChanReach newDefuerConfig [42] c1s3 :=
    ChanReach.step _ _ h2
      (ChanStep.recvDirect _ 42 [] (Or.inl rfl) rfl (by decide) (by decide))
  have h4 : ChanReach newDefuerConfig [42] c1s4 :=
    ChanReach.step _ _ h3 (ChanStep.closeSelect _ (Or.inl rfl) rfl)
  have h5 : ChanReach newDefuerConfig [42] c1s5 :=
    ChanReach.step _ _ h4 (ChanStep.termBufDone _ none rfl (by decide))
  have h6 : ChanReach newDefuerConfig [42] c1s6 :=
    ChanReach.step _ _ h5 (ChanStep.termPopedNone _ rfl)
  have h7 : ChanReach newDefuerConfig [42] c1s7 :=
    ChanReach.step _ _ h6 (ChanStep.termInDone _ rfl rfl)
  exact ChanReach.step _ _ h7 (ChanStep.consume _ (some 42) [] rfl)

/-- Claim C1 witness: the concrete complete run of `[42]` through the
default configuration delivers exactly `[some 42]`. -/
theorem c1_witness :
    (∃ rest, c1sFinal.delivered ++ rest = ([42] : List Nat).map some) ∧
      (c1sFinal.outClosed = true → c1sFinal.outq = [] →
        c1sFinal.delivered = ([42] : List Nat).map some) :=
  c1_channx_fifo Nat newDefuerConfig [42] c1sFinal rfl
    ⟨by decide, by decide, by decide⟩ c1_run

/-- Claim C2, corrected: the implementation does close `in` — the first
statement of `processTermination` is `close(ch.in)`. Whenever a step turns
`inClosed` on, `Close()` had already been requested and the step is exactly
the entry into `processTermination` (from the dispatch select or from the
blocked admit step); no other operation closes `in`. -/
theorem c2_close_in (α : Type) (cfg : ChanConfig) (s s' : ChanState α)
    (hstep : ChanStep cfg s s') (h0 : s.inClosed = false)
    (h1 : s'.inClosed = true) :
    s.closeReq = true ∧
      (s' = enterTermination cfg s none ∨
        ∃ v, s' = enterTermination cfg s (some v)) := by
  cases hstep with
  | send v rest hpend hincl hroom =>
    exact absurd (h0.symm.trans h1) (by simp)
  | closeSignal hpend => exact absurd (h0.symm.trans h1) (by simp)
  | recvDirect v rest hpc hinq hemp hroom =>
    exact absurd (h0.symm.trans h1) (by simp)
  | recvPut v rest b' hpc hinq hput =>
    exact absurd (h0.symm.trans h1) (by simp)
  | recvPutFull v rest b' hpc hinq hput =>
    exact absurd (h0.symm.trans h1) (by simp)
  | closeSelect hpc hcreq => exact ⟨hcreq, Or.inl rfl⟩
  | sendHead x b' y ok hpc hpeek hroom hpop =>
    exact absurd (h0.symm.trans h1) (by simp)
  | awaitSend v x b' b2 y ok ok2 hpc hpeek hroom hpop hput =>
    exact absurd (h0.symm.trans h1) (by simp)
  | awaitClose v hpc hcreq => exact ⟨hcreq, Or.inr ⟨v, rfl⟩⟩
  | termBufSend p b' y ok hpc hemp hpop hroom =>
    exact absurd (h0.symm.trans h1) (by simp)
  | termBufDone p hpc hemp => exact absurd (h0.symm.trans h1) (by simp)
  | termPopedSend v hpc hroom => exact absurd (h0.symm.trans h1) (by simp)
  | termPopedNone hpc => exact absurd (h0.symm.trans h1) (by simp)
  | termInSend v rest hpc hinq hroom =>
    exact absurd (h0.symm.trans h1) (by simp)
  | termInDone hpc hinq => exact absurd (h0.symm.trans h1) (by simp)
  | consume x rest houtq => exact absurd (h0.symm.trans h1) (by simp)

/-- Claim C2 witness: at the concrete close-select step from `c2s1`, the
corrected statement applies — the close had been requested and the step is
the entry into `processTermination`. -/
theorem c2_witness :
    c2s1.closeReq = true ∧
      (c2s2 = enterTermination newDefuerConfig c2s1 none ∨
        ∃ v, c2s2 = enterTermination newDefuerConfig c2s1 (some v)) :=
  c2_close_in Nat newDefuerConfig c2s1 c2s2
    (ChanStep.closeSelect c2s1 (Or.inl rfl) rfl) rfl rfl

/-- Claim C2 counterexample: a two-step reachable execution of the default
configuration (a `Close()` and the dispatcher taking the close branch)
reaches a state in which `in` has been closed, refuting "never closes
`in`". -/
theorem c2_counterexample :
    ChanReach newDefuerConfig ([] : List Nat) c2s2 ∧ c2s2.inClosed = true :=
  ⟨ChanReach.step _ _
      (ChanReach.step _ _ ChanReach.init (ChanStep.closeSignal _ rfl))
      (ChanStep.closeSelect _ (Or.inl rfl) rfl),
    rfl⟩

end Golib
